import Mathlib

/-!
Shallow embedding of the `tb_pacman` simulation core (`src/tb_pacman/src/pacman.rs`)
together with theorems settling the claims of the specification.

Conventions of the embedding:
* Rust `i32` values are modelled as `Int` (no arithmetic in the game approaches
  the `i32` range, and every claim is about small in-range values); `u32`/`usize`
  indices are `Nat`.
* Rust integer division `/` truncates toward zero and is modelled by `Int.tdiv`.
* Fallible code is modelled with `Option`/`Except`: a Rust panic
  (`unwrap` on `None`, out-of-bounds slice index, `tiles[0]` on an empty grid)
  becomes `none`.
* The `VecDeque` history is a `List Nat` whose head is the front of the deque.
* `HashSet<u32>` is a `Finset Nat`.
* The struct declarations live in the crate module `typespacman` which is not
  present under `src/`; the field sets are reconstructed from the exhaustive
  struct literals in `pacman.rs` (`Mob::new`, `BoardUpdate::new`,
  `State::try_new`), which determine them completely.
* The external crates `toybox_core` (directions, input, random generator) and
  `rand` (`SliceRandom::choose`) are not part of the repository; the few pieces
  used are modelled from the spec where marked.
-/

namespace Pac

/-- Tile classifications of the board grid (enum `Tile` of the types module). -/
inductive Tile where
  | Wall
  | Pellet
  | PowerPellet
  | Empty
  | Teleport
  | House
deriving DecidableEq, Repr

/-- Modelled from the spec: the movement directions come from the external
`toybox_core` crate (not under `src/`). Screen rows grow downward, so `Up`
decreases `y` and `Down` increases it. -/
inductive Direction where
  | Up
  | Down
  | Left
  | Right
deriving DecidableEq, Repr

/-- Modelled from the spec: `Direction::delta` of `toybox_core`. -/
def Direction.delta : Direction → Int × Int
  | .Up => (0, -1)
  | .Down => (0, 1)
  | .Left => (-1, 0)
  | .Right => (1, 0)

/-- Modelled from the spec: one sample of the player controls
(`toybox_core::Input`, not under `src/`); only the four direction buttons
matter to the core. `Input::default()` has every button released. -/
structure Input where
  left : Bool
  right : Bool
  up : Bool
  down : Bool
deriving DecidableEq, Repr

def Input.default : Input := ⟨false, false, false, false⟩

/-- Sub-tile "world" position (`WorldPoint` of the types module). -/
structure WorldPoint where
  x : Int
  y : Int
deriving DecidableEq, Repr

/-- Discrete grid coordinate (`TilePoint` of the types module). -/
structure TilePoint where
  tx : Int
  ty : Int
deriving DecidableEq, Repr

namespace screen

/-- `screen::TILE_SIZE` from `pacman.rs`. -/
def TILE_SIZE : Int × Int := (7, 7)

end screen

namespace world

/-- `world::SCALE` from `pacman.rs`. -/
def SCALE : Int := 32

/-- `world::TILE_SIZE` from `pacman.rs`: `(7 * 32, 7 * 32) = (224, 224)`. -/
def TILE_SIZE : Int × Int := (screen.TILE_SIZE.1 * SCALE, screen.TILE_SIZE.2 * SCALE)

end world

/-- `WorldPoint::to_tile`. Rust `/` on `i32` truncates toward zero
(`Int.tdiv`); the source then subtracts 1 whenever the coordinate is
negative, which is the behaviour under scrutiny in the claims. -/
def WorldPoint.to_tile (p : WorldPoint) : TilePoint :=
  let tx := Int.tdiv p.x world.TILE_SIZE.1
  let ty := Int.tdiv p.y world.TILE_SIZE.2
  let tx := if p.x < 0 then tx - 1 else tx
  let ty := if p.y < 0 then ty - 1 else ty
  ⟨tx, ty⟩

/-- `WorldPoint::translate`. -/
def WorldPoint.translate (p : WorldPoint) (dx dy : Int) : WorldPoint :=
  ⟨p.x + dx, p.y + dy⟩

/-- `TilePoint::to_world`. -/
def TilePoint.to_world (t : TilePoint) : WorldPoint :=
  ⟨t.tx * world.TILE_SIZE.1, t.ty * world.TILE_SIZE.2⟩

/-- `TilePoint::translate`. -/
def TilePoint.translate (t : TilePoint) (dx dy : Int) : TilePoint :=
  ⟨t.tx + dx, t.ty + dy⟩

/-- `TilePoint::step`. -/
def TilePoint.step (t : TilePoint) (dir : Direction) : TilePoint :=
  t.translate dir.delta.1 dir.delta.2

/-- `Tile::new_from_char`. The Rust error is the string
`"Cannot construct AmidarTile from '<c>'"`; the embedding keeps the payload,
the offending character itself. -/
def Tile.new_from_char (c : Char) : Except Char Tile :=
  if c = 'e' then .ok .Empty
  else if c = '=' then .ok .Pellet
  else if c = 'p' then .ok .PowerPellet
  else if c = '#' then .ok .Wall
  else if c = 'h' then .ok .House
  else if c = 't' then .ok .Teleport
  else .error c

/-- Whether a character is one of the six mapped tile codes. -/
def isTileCode (c : Char) : Bool :=
  match Tile.new_from_char c with
  | .ok _ => true
  | .error _ => false

/-- `Tile::walkable`. -/
def Tile.walkable : Tile → Bool
  | .House | .Wall => false
  | .Pellet | .PowerPellet | .Empty | .Teleport => true

/-- `Tile::is_still_collectable`. -/
def Tile.is_still_collectable : Tile → Bool
  | .Pellet | .PowerPellet => true
  | .Empty | .Wall | .House | .Teleport => false

/-- `MovementAI` (types module): player input control or the random-walk
enemy with its start tile, start heading and current heading. -/
inductive MovementAI where
  | Player
  | EnemyRandomMvmt (start : TilePoint) (start_dir : Direction) (dir : Direction)
deriving DecidableEq, Repr

/-- `MovementAI::reset`: an enemy returns to its starting heading. -/
def MovementAI.reset : MovementAI → MovementAI
  | .Player => .Player
  | .EnemyRandomMvmt start start_dir _ => .EnemyRandomMvmt start start_dir start_dir

/-- `Mob` (types module). The field set is reconstructed from the exhaustive
struct literal in `Mob::new`/`Mob::new_player` of `pacman.rs`: there is no
immobilization field on the compiled struct. -/
structure Mob where
  ai : MovementAI
  position : WorldPoint
  step : Option TilePoint
  caught : Bool
  vulnerable : Bool
  speed : Int
  history : List Nat
deriving DecidableEq, Repr

/-- `Board` (types module). -/
structure Board where
  tiles : List (List Tile)
  width : Nat
  height : Nat
  junctions : Finset Nat
deriving DecidableEq

/-- `BoardUpdate` (types module); field set reconstructed from
`BoardUpdate::new` in `pacman.rs`. -/
structure BoardUpdate where
  junctions : Option (Nat × Nat)
  pellets_collected : Int
  power_pellets_collected : Int
  teleport : Int
  ghosts_consumed : Int
deriving DecidableEq, Repr

/-- `BoardUpdate::new`. -/
def BoardUpdate.new : BoardUpdate := ⟨none, 0, 0, 0, 0⟩

/-- `BoardUpdate::happened`. -/
def BoardUpdate.happened (u : BoardUpdate) : Bool :=
  u.junctions.isSome || decide (u.pellets_collected ≠ 0)
    || decide (u.power_pellets_collected ≠ 0) || decide (u.ghosts_consumed ≠ 0)
    || decide (u.teleport ≠ 0)

/-- `BoardUpdate::into_option`. -/
def BoardUpdate.into_option (u : BoardUpdate) : Option BoardUpdate :=
  if u.happened then some u else none

/-- `EnemyPlayerState` (types module). -/
inductive EnemyPlayerState where
  | Miss
  | PlayerDeath
  | EnemyCatch (eid : Nat)
deriving DecidableEq, Repr

/-- `Board::get_tile`: out-of-bounds lookups (including the huge `usize`
coming from a negative `i32` cast) fall through to `Tile::Empty`. -/
def Board.get_tile (b : Board) (tile : TilePoint) : Tile :=
  if 0 ≤ tile.ty ∧ 0 ≤ tile.tx then
    match b.tiles[tile.ty.toNat]? with
    | some row =>
      match row[tile.tx.toNat]? with
      | some t => t
      | none => .Empty
    | none => .Empty
  else .Empty

/-- `Board::is_corner`. -/
def Board.is_corner (b : Board) (tx ty : Int) : Bool :=
  let last_y : Int := (b.height : Int) - 1
  let last_x : Int := (b.width : Int) - 1
  (decide (tx = 0) || decide (tx = last_x)) && (decide (ty = 0) || decide (ty = last_y))

/-- `Board::can_move`. -/
def Board.can_move (b : Board) (position : TilePoint) (dir : Direction) : Option TilePoint :=
  let d := dir.delta
  let tp : TilePoint := ⟨position.tx + d.1, position.ty + d.2⟩
  if (b.get_tile tp).walkable then some tp else none

/-- `Board::tile_id`. -/
def Board.tile_id (b : Board) (tile : TilePoint) : Option Nat :=
  if tile.ty < 0 ∨ tile.tx < 0 ∨ (b.height : Int) ≤ tile.ty ∨ (b.width : Int) ≤ tile.tx then
    none
  else
    some (tile.ty.toNat * b.width + tile.tx.toNat)

/-- `Board::is_junction`. -/
def Board.is_junction (b : Board) (tile : TilePoint) : Bool :=
  match b.tile_id tile with
  | some num => decide (num ∈ b.junctions)
  | none => false

/-- `Board::get_junction_id`. -/
def Board.get_junction_id (b : Board) (tile : TilePoint) : Option Nat :=
  match b.tile_id tile with
  | some num => if num ∈ b.junctions then some num else none
  | none => none

/-- Count of walkable orthogonal neighbours used by `Board::init_junctions`
(the neighbour list is written there literally as
`[(x + 1, y), (x, y + 1), (x - 1, y), (x, y - 1)]`). -/
def Board.walkableNeighbors (b : Board) (x y : Int) : Nat :=
  ([(x + 1, y), (x, y + 1), (x - 1, y), (x, y - 1)] : List (Int × Int)).countP
    (fun n => (b.get_tile ⟨n.1, n.2⟩).walkable)

/-- Insertion condition of `Board::init_junctions` for the cell at column `x`,
row `y`: the cell is walkable and has more than two walkable neighbours or
lies at a grid corner. -/
def Board.junctionCond (b : Board) (x y : Nat) (cell : Tile) : Bool :=
  cell.walkable && (decide (2 < b.walkableNeighbors (x : Int) (y : Int)) || b.is_corner (x : Int) (y : Int))

/-- The junction identifiers inserted by `Board::init_junctions`, in
iteration order over the actual grid rows. -/
def Board.junctionList (b : Board) : List Nat :=
  b.tiles.enum.flatMap fun yr =>
    yr.2.enum.filterMap fun xc =>
      if b.junctionCond xc.1 yr.1 xc.2 then some (yr.1 * b.width + xc.1) else none

/-- The junction set computed by `Board::init_junctions` (the `HashSet`
contents, order-free). It only reads the tiles, the width and the height,
never the stored `junctions` field. -/
def Board.computeJunctions (b : Board) : Finset Nat :=
  b.junctionList.toFinset

/-- Row parsing of `Board::try_new`: `line.chars().map(Tile::new_from_char).collect()`
short-circuits at the first unmapped character. -/
def parseChars : List Char → Except Char (List Tile)
  | [] => .ok []
  | c :: rest =>
    match Tile.new_from_char c with
    | .error e => .error e
    | .ok t =>
      match parseChars rest with
      | .error e => .error e
      | .ok ts => .ok (t :: ts)

/-- Parse one board row. -/
def parseRow (line : String) : Except Char (List Tile) :=
  parseChars line.toList

/-- The row loop of `Board::try_new`: `row?` returns the first bad row's error. -/
def parseRows : List String → Except Char (List (List Tile))
  | [] => .ok []
  | l :: rest =>
    match parseRow l with
    | .error e => .error e
    | .ok row =>
      match parseRows rest with
      | .error e => .error e
      | .ok rows => .ok (row :: rows)

/-- `Board::try_new`. Width is taken from the first parsed row
(`tiles[0].len()`); no check compares the row lengths. On an empty line list
the source indexes `tiles[0]` and panics, modelled as `none`. -/
def Board.try_new (lines : List String) : Option (Except Char Board) :=
  match parseRows lines with
  | .error c => some (.error c)
  | .ok tiles =>
    match tiles with
    | [] => none
    | row0 :: _ =>
      let base : Board := ⟨tiles, row0.length, tiles.length, ∅⟩
      some (.ok { base with junctions := base.computeJunctions })

/-- `Board::collect_pellet`: direct indexing `tiles[ty][tx]` panics out of
bounds (negative coordinates cast to huge `usize`), modelled as `none`;
otherwise a `Pellet` becomes `Empty` and the flag reports whether a change
occurred. -/
def Board.collect_pellet (b : Board) (tile : TilePoint) : Option (Board × Bool) :=
  if 0 ≤ tile.ty ∧ 0 ≤ tile.tx then
    match b.tiles[tile.ty.toNat]? with
    | none => none
    | some row =>
      match row[tile.tx.toNat]? with
      | none => none
      | some val =>
        if val ≠ Tile.Pellet then some (b, false)
        else some ({ b with tiles := b.tiles.set tile.ty.toNat (row.set tile.tx.toNat Tile.Empty) }, true)
  else none

/-- `Board::collect_power_pellet`. -/
def Board.collect_power_pellet (b : Board) (tile : TilePoint) : Option (Board × Bool) :=
  if 0 ≤ tile.ty ∧ 0 ≤ tile.tx then
    match b.tiles[tile.ty.toNat]? with
    | none => none
    | some row =>
      match row[tile.tx.toNat]? with
      | none => none
      | some val =>
        if val ≠ Tile.PowerPellet then some (b, false)
        else some ({ b with tiles := b.tiles.set tile.ty.toNat (row.set tile.tx.toNat Tile.Empty) }, true)
  else none

/-- `Board::is_tp`. -/
def Board.is_tp (b : Board) (xy : TilePoint) : Bool :=
  decide (b.get_tile xy = Tile.Teleport)

/-- `Board::lookup_position`. -/
def Board.lookup_position (b : Board) (position : Nat) : TilePoint :=
  ⟨((position % b.width : Nat) : Int), ((position / b.width : Nat) : Int)⟩

/-- `Board::board_complete`. -/
def Board.board_complete (b : Board) : Bool :=
  b.tiles.all fun row => row.all fun tile => !tile.is_still_collectable

/-- `Board::check_pellets_every_tile`: collect at the player's current tile;
if anything was collected, read the front of the history (`unwrap`, panics on
an empty queue, modelled as `none`) and truncate the history to it. -/
def Board.check_pellets_every_tile (b : Board) (player_position : WorldPoint)
    (player_history : List Nat) : Option (Board × List Nat × BoardUpdate) :=
  match b.collect_pellet player_position.to_tile with
  | none => none
  | some (b1, newly_pellet_emptied) =>
    match b1.collect_power_pellet player_position.to_tile with
    | none => none
    | some (b2, newly_power_pellet_emptied) =>
      let score_change :=
        if newly_pellet_emptied then
          { BoardUpdate.new with pellets_collected := BoardUpdate.new.pellets_collected + 1 }
        else if newly_power_pellet_emptied then
          { BoardUpdate.new with power_pellets_collected := BoardUpdate.new.power_pellets_collected + 1 }
        else BoardUpdate.new
      if score_change.happened then
        match player_history with
        | [] => none
        | current :: _ => some (b2, [current], score_change)
      else some (b2, player_history, score_change)

/-- Modelled from the spec: the seeded pseudorandom generator
(`toybox_core::random::Gen`, external) is threaded explicitly through every
random choice; it is modelled as a stream of naturals, pulled from the front
(an exhausted list keeps yielding 0, preserving determinism). -/
abbrev Rng := List Nat

/-- Draw the next random value. -/
def rngNext (r : Rng) : Nat × Rng := (r.headD 0, r.tail)

/-- Modelled from the spec: `rand`'s `SliceRandom::choose` picks uniformly at
random among the elements of a slice, consuming one draw; it returns `none`
on an empty slice (the caller in `choose_next_tile` unwraps it). -/
def chooseFrom {α : Type} (l : List α) (rng : Rng) : Option (α × Rng) :=
  match l with
  | [] => none
  | a :: rest =>
    let n := rngNext rng
    some ((a :: rest).getD (n.1 % (rest.length + 1)) a, n.2)

/-- `MovementAI::choose_next_tile`. The player maps buttons to a direction
with priority left, right, up, down and proposes the stepped tile when
walkable. The random-walk enemy keeps its heading unless it sits on a
junction or its heading is blocked, in which case it chooses uniformly from
the walkable directions and `unwrap`s the choice (`none` models the panic on
an empty eligible set). Returns the proposed step, the updated AI state and
the advanced generator. -/
def MovementAI.choose_next_tile (ai : MovementAI) (position : TilePoint) (buttons : Input)
    (board : Board) (_player : Option Mob) (rng : Rng) :
    Option (Option TilePoint × MovementAI × Rng) :=
  match ai with
  | .Player =>
    let input : Option Direction :=
      if buttons.left then some .Left
      else if buttons.right then some .Right
      else if buttons.up then some .Up
      else if buttons.down then some .Down
      else none
    let tgt := input.bind fun dir =>
      let target_tile := position.step dir
      if (board.get_tile target_tile).walkable then some target_tile else none
    some (tgt, .Player, rng)
  | .EnemyRandomMvmt start start_dir dir =>
    let directions : List Direction := [.Up, .Down, .Left, .Right]
    let tp_default := board.can_move position dir
    if board.is_junction position || tp_default.isNone then
      let eligible : List (Direction × TilePoint) :=
        directions.filterMap fun d => (board.can_move position d).map fun tp => (d, tp)
      match chooseFrom eligible rng with
      | none => none
      | some ((d, tp), rng') => some (some tp, .EnemyRandomMvmt start start_dir d, rng')
    else some (tp_default, .EnemyRandomMvmt start start_dir dir, rng)

/-- `Mob::new`. -/
def Mob.new (ai : MovementAI) (position : WorldPoint) (speed : Int) : Mob :=
  { ai := ai, position := position, step := none, caught := false,
    vulnerable := false, speed := speed, history := [] }

/-- `Mob::new_player`. -/
def Mob.new_player (position : WorldPoint) (speed : Int) : Mob :=
  { ai := .Player, position := position, step := none, caught := false,
    vulnerable := false, speed := speed, history := [] }

/-- `Mob::is_player`. -/
def Mob.is_player (m : Mob) : Bool :=
  decide (m.ai = MovementAI.Player)

/-- `Mob::change_speed`. -/
def Mob.change_speed (m : Mob) (new_speed : Int) : Mob :=
  { m with speed := new_speed }

/-- `Mob::teleport`: cancel the in-flight step and move to hardcoded column
19 (when currently in column 0) or column 1 (otherwise) at the same row.
The board argument is ignored by the source body. -/
def Mob.teleport (m : Mob) (_board : Board) : Mob :=
  let new_x : Int := if m.position.to_tile.tx = 0 then 19 else 1
  { m with step := none,
           position := (TilePoint.mk new_x m.position.to_tile.ty).to_world }

/-- `Mob::reset`: clear the step, reset the AI heading, return to the start
position (the configured player start for the player, the AI's own start for
an enemy), clear the history and both flags. The board argument is unused by
the source body. -/
def Mob.reset (m : Mob) (player_start : TilePoint) (_board : Board) : Mob :=
  { m with
    step := none,
    ai := m.ai.reset,
    position :=
      match m.ai with
      | .Player => player_start.to_world
      | .EnemyRandomMvmt start _ _ => start.to_world,
    history := [],
    caught := false,
    vulnerable := false }

/-- The history push on reaching `target` in `Mob::update`. -/
def Mob.pushJunction (m : Mob) (target : TilePoint) (board : Board) : Mob :=
  match board.get_junction_id target with
  | some pt => { m with history := pt :: m.history }
  | none => m

/-- The history seeding at the top of `Mob::update`: an empty history is
primed with the junction id of the current tile, when it is a junction. -/
def Mob.seedHistory (m : Mob) (board : Board) : Mob :=
  if m.history.isEmpty then
    match board.get_junction_id m.position.to_tile with
    | some pt => { m with history := pt :: m.history }
    | none => m
  else m

/-- The movement block of `Mob::update`: one step toward the step target
(`dx`/`dy` are the axis distances to the target's world position): snap onto
the target when both distances are below `speed` (recording the junction),
else move `speed` sub-pixels per axis toward it and keep the target. -/
def Mob.moveStep (m : Mob) (board : Board) : Mob × Option TilePoint :=
  match m.step with
  | some target =>
    if target.to_world.x - m.position.x = 0 ∧ target.to_world.y - m.position.y = 0 then
      (m.pushJunction target board, none)
    else if |target.to_world.x - m.position.x| < m.speed
        ∧ |target.to_world.y - m.position.y| < m.speed then
      ({ m.pushJunction target board with
          position := ⟨m.position.x + (target.to_world.x - m.position.x),
                       m.position.y + (target.to_world.y - m.position.y)⟩ }, none)
    else
      ({ m with position := ⟨m.position.x + m.speed * (target.to_world.x - m.position.x).sign,
                             m.position.y + m.speed * (target.to_world.y - m.position.y).sign⟩ },
        some target)
  | none => (m, none)

/-- The deterministic front of `Mob::update`: seed the history, animate one
movement step, and write the resulting step target back. -/
def Mob.advance (m : Mob) (board : Board) : Mob :=
  { ((m.seedHistory board).moveStep board).1 with
    step := ((m.seedHistory board).moveStep board).2 }

/-- The re-planning step of `Mob::update`: when no step target remains after
the movement phase, ask the AI for a new one (which may panic for a boxed-in
enemy, modelled as `none`). -/
def Mob.plan (m1 : Mob) (buttons : Input) (board : Board) (player : Option Mob)
    (rng : Rng) : Option (Mob × Rng) :=
  if m1.step.isNone then
    match m1.ai.choose_next_tile m1.position.to_tile buttons board player rng with
    | none => none
    | some (tgt, ai', rng') => some ({ m1 with step := tgt, ai := ai' }, rng')
  else some (m1, rng)

/-- `Mob::update`: advance the movement, ask the AI for a new target when
idle, then (player only) check the current tile for collectables, otherwise
cap the history length. `none` models the panics reachable inside
(`choose` unwrap for a boxed-in enemy, pellet handling out of bounds or with
an empty history). Returns the mob, the board, the generator and the
optional board update. -/
def Mob.update (m : Mob) (buttons : Input) (board : Board) (player : Option Mob)
    (history_limit : Nat) (rng : Rng) : Option (Mob × Board × Rng × Option BoardUpdate) :=
  match Mob.plan (m.advance board) buttons board player rng with
  | none => none
  | some (m2, rng2) =>
    if m2.is_player then
      match board.check_pellets_every_tile m2.position m2.history with
      | none => none
      | some (board', history', sc) =>
        some ({ m2 with history := history' }, board', rng2, sc.into_option)
    else
      if history_limit < m2.history.length then
        some ({ m2 with history := m2.history.dropLast }, board, rng2, none)
      else
        some (m2, board, rng2, none)

/-- `Board::make_enemy`. -/
def Board.make_enemy (b : Board) (ai : MovementAI) (speed : Int) : Mob :=
  let fake : TilePoint := ⟨0, 0⟩
  (Mob.new ai fake.to_world speed).reset fake b

/-- Gameplay-relevant configuration (`Pacman` of the types module); the field
set is reconstructed from the `Default` impl in `pacman.rs`. Colors, the
render flag and the seed generator are render/setup-only and omitted; the
generator is threaded separately as `Rng`. -/
structure Pacman where
  board : List String
  player_start : TilePoint
  start_lives : Int
  history_limit : Nat
  enemy_starting_speed : Int
  life_gain_threshold : Int
  score_increase_per_pellet : Int
  score_increase_per_power_pellet : Int
  score_increase_base_per_ghost_catch : Int
  player_speed : Int
  vulnerable_time : Int
  enemies : List MovementAI
deriving DecidableEq, Repr

/-- Per-frame state (`StateCore` of the types module, minus the embedded
generator, threaded separately). -/
structure StateCore where
  lives : Int
  score : Int
  vulnerability_timer : Int
  enemies_caught_multiplier : Int
  lives_gained : Int
  level : Int
  player : Mob
  enemies : List Mob
  board : Board
deriving DecidableEq

/-- `State::reset`: always reset the player; reset the enemies only when the
reset is not due to a player death. -/
def stateReset (config : Pacman) (s : StateCore) (player_death : Bool) : StateCore :=
  let s := { s with player := s.player.reset config.player_start s.board }
  if player_death then s
  else { s with enemies := s.enemies.map fun e => e.reset config.player_start s.board }

/-- `State::try_new` (modulo the generator): parse the configured board, build
the enemies and the player, then `reset(true)`. -/
def StateCore.try_new (config : Pacman) : Option (Except Char StateCore) :=
  match Board.try_new config.board with
  | none => none
  | some (.error c) => some (.error c)
  | some (.ok board) =>
    let enemies := config.enemies.map fun ai => board.make_enemy ai config.enemy_starting_speed
    let player := Mob.new_player config.player_start.to_world config.player_speed
    let core : StateCore :=
      { lives := config.start_lives, score := 0, vulnerability_timer := 0,
        enemies_caught_multiplier := 1, lives_gained := 0, level := 1,
        player := player, enemies := enemies, board := board }
    some (.ok (stateReset config core true))

/-- `State::check_enemy_player_collision`: tile-coordinate equality decides a
collision; a vulnerable enemy is caught, otherwise the player dies. -/
def StateCore.check_enemy_player_collision (s : StateCore) (enemy : Mob)
    (enemy_id : Nat) : EnemyPlayerState :=
  if s.player.position.to_tile = enemy.position.to_tile then
    if enemy.vulnerable then .EnemyCatch enemy_id else .PlayerDeath
  else .Miss

/-- `State::check_teleport`. -/
def StateCore.check_teleport (s : StateCore) (mob : Mob) : Bool :=
  s.board.is_tp mob.position.to_tile

/-- Lines 951-966 of `update_mut`: add the pellet and power-pellet score, and
on a power-pellet collection arm the vulnerability countdown, reset the catch
multiplier to 1 and mark every enemy vulnerable. -/
def applyScoreChange (config : Pacman) (s : StateCore) (score_change : BoardUpdate) : StateCore :=
  if 0 < score_change.power_pellets_collected then
    { s with
      score := s.score
          + score_change.pellets_collected * config.score_increase_per_pellet
          + score_change.power_pellets_collected * config.score_increase_per_power_pellet,
      vulnerability_timer := config.vulnerable_time,
      enemies_caught_multiplier := 1,
      enemies := s.enemies.map fun e => { e with vulnerable := true } }
  else
    { s with
      score := s.score
          + score_change.pellets_collected * config.score_increase_per_pellet
          + score_change.power_pellets_collected * config.score_increase_per_power_pellet }

/-- Lines 969-973 of `update_mut`: when the countdown sits at exactly zero,
clear every enemy's vulnerable flag. -/
def clearVulnIfZero (s : StateCore) : StateCore :=
  if s.vulnerability_timer = 0 then
    { s with enemies := s.enemies.map fun e => { e with vulnerable := false } }
  else s

/-- Lines 976-979 of `update_mut`: teleport the player when it stands on a
teleport tile. -/
def teleportPlayerIfOnTp (s : StateCore) : StateCore :=
  if s.check_teleport s.player then { s with player := s.player.teleport s.board } else s

/-- Lines 981-983 of `update_mut`: decrement the countdown while positive. -/
def decrementVuln (s : StateCore) : StateCore :=
  if 0 < s.vulnerability_timer then
    { s with vulnerability_timer := s.vulnerability_timer - 1 }
  else s

/-- One collision sweep over the enemies (`update_mut` lines 989-995 and
again 1019-1023): record every non-`Miss` outcome in enemy-index order. -/
def collisionPass (s : StateCore) : List EnemyPlayerState :=
  s.enemies.enum.filterMap fun ie =>
    let st := s.check_enemy_player_collision ie.2 ie.1
    if st ≠ EnemyPlayerState.Miss then some st else none

/-- Lines 997-1003 of `update_mut`: every enemy's speed becomes the base
enemy speed, reduced by 4 while vulnerable. Nothing else is consulted. -/
def recomputeEnemySpeeds (config : Pacman) (s : StateCore) : StateCore :=
  { s with enemies := s.enemies.map fun e =>
      if e.vulnerable then e.change_speed (config.enemy_starting_speed - 4)
      else e.change_speed config.enemy_starting_speed }

/-- The enemy-movement loop of `update_mut` (lines 1007-1015), threading the
board and the generator left to right; the per-enemy board update is
discarded as in the source. -/
def moveEnemiesGo (config : Pacman) (player : Mob) :
    List Mob → Board → Rng → Option (List Mob × Board × Rng)
  | [], board, rng => some ([], board, rng)
  | e :: rest, board, rng =>
    match e.update Input.default board (some player) config.history_limit rng with
    | none => none
    | some (e', board', rng', _) =>
      match moveEnemiesGo config player rest board' rng' with
      | none => none
      | some (rest', board'', rng'') => some (e' :: rest', board'', rng'')

/-- Enemy movement as a state transformer. -/
def moveEnemies (config : Pacman) (s : StateCore) (rng : Rng) : Option (StateCore × Rng) :=
  match moveEnemiesGo config s.player s.enemies s.board rng with
  | none => none
  | some (enemies', board', rng') => some ({ s with enemies := enemies', board := board' }, rng')

/-- The enemy-teleport queue of the second collision sweep (lines 1024-1027):
indices of enemies standing on a teleport tile. -/
def teleportVec (s : StateCore) : List Nat :=
  s.enemies.enum.filterMap fun ie => if s.check_teleport ie.2 then some ie.1 else none

/-- Lines 1030-1036 of `update_mut`: teleport the queued enemies. -/
def applyEnemyTeleports (s : StateCore) (teleport_vec : List Nat) : StateCore :=
  { s with enemies := s.enemies.enum.map fun ie =>
      if teleport_vec.contains ie.1 then ie.2.teleport s.board else ie.2 }

/-- In-place update of one list entry (`Vec` indexed assignment); the indices
produced by the collision sweeps are always in range. -/
def listModify {α : Type} (l : List α) (i : Nat) (f : α → α) : List α :=
  match l, i with
  | [], _ => []
  | a :: rest, 0 => f a :: rest
  | a :: rest, n + 1 => a :: listModify rest n f

/-- The event-resolution loop of `update_mut` (lines 1042-1082).
`recently_caught` starts at the sentinel 5; a `PlayerDeath` sets the dead
flag and breaks; an `EnemyCatch` is skipped exactly when its index equals
`recently_caught`, and otherwise awards `base * multiplier`, doubles the
multiplier and resets the caught enemy. -/
def processChanges (config : Pacman) :
    List EnemyPlayerState → StateCore → Nat → Bool × StateCore
  | [], s, _ => (false, s)
  | .Miss :: rest, s, recently_caught => processChanges config rest s recently_caught
  | .PlayerDeath :: _, s, _ => (true, s)
  | .EnemyCatch eid :: rest, s, recently_caught =>
    if recently_caught ≠ eid then
      processChanges config rest
        { s with
          score := s.score + config.score_increase_base_per_ghost_catch * s.enemies_caught_multiplier,
          enemies_caught_multiplier := s.enemies_caught_multiplier * 2,
          enemies := listModify s.enemies eid fun e => e.reset config.player_start s.board }
        eid
    else processChanges config rest s recently_caught

/-- Lines 1084-1087 of `update_mut`: the life-gain check grants at most one
life per tick. -/
def lifeGain (config : Pacman) (s : StateCore) : StateCore :=
  if (s.lives_gained + 1) * config.life_gain_threshold < s.score then
    { s with lives := s.lives + 1, lives_gained := s.lives_gained + 1 }
  else s

/-- Lines 1089-1104 of `update_mut`: on a death, decrement lives, roll the
score back to its tick-entry value and reset only the player; otherwise, on
a completed board, reset the player and the enemies, advance the level,
clear the countdown and replace the board with the global default board
(`Board::fast_new`), passed here as `default_board`. -/
def endPhase (config : Pacman) (default_board : Board) (dead : Bool)
    (pre_update_score : Int) (s : StateCore) : StateCore :=
  if dead then
    stateReset config { s with lives := s.lives - 1, score := pre_update_score } true
  else if s.board.board_complete then
    let s' := stateReset config s false
    { s' with level := s'.level + 1, vulnerability_timer := 0, board := default_board }
  else s

/-- The state between the player move and the first collision sweep of
`update_mut`: write back the player and the board, apply the optional
collection delta, the clear-at-zero phase, the player teleport and the
countdown decrement, in source order. -/
def preMoveState (config : Pacman) (s : StateCore) (player' : Mob) (board' : Board)
    (score_change_opt : Option BoardUpdate) : StateCore :=
  decrementVuln (teleportPlayerIfOnTp (clearVulnIfZero
    (match score_change_opt with
     | some score_change =>
       applyScoreChange config { s with player := player', board := board' } score_change
     | none => { s with player := player', board := board' })))

/-- The tail of the tick after enemy movement: second collision sweep
(recorded before the enemy teleports are applied), enemy teleports, event
resolution over the concatenated sweeps and the life-gain check. Returns the
state together with the dead flag. -/
def postMoveAssemble (config : Pacman) (changes1 : List EnemyPlayerState)
    (s7 : StateCore) : StateCore × Bool :=
  let r := processChanges config (changes1 ++ collisionPass s7)
    (applyEnemyTeleports s7 (teleportVec s7)) 5
  (lifeGain config r.2, r.1)

/-- `State::update_mut` up to (but excluding) the final death/level section:
player movement and collection, score and vulnerability bookkeeping, player
teleport, countdown decrement, first collision sweep, speed recomputation,
enemy movement, second collision sweep with the enemy-teleport queue, event
resolution and the life-gain check. Returns the state and the dead flag. -/
def updateMutPreEnd (config : Pacman) (s : StateCore) (buttons : Input) (rng : Rng) :
    Option (StateCore × Bool) :=
  match s.player.update buttons s.board none config.history_limit rng with
  | none => none
  | some (player', board', rng1, score_change_opt) =>
    match moveEnemies config
        (recomputeEnemySpeeds config (preMoveState config s player' board' score_change_opt))
        rng1 with
    | none => none
    | some (s7, _) =>
      some (postMoveAssemble config
        (collisionPass (preMoveState config s player' board' score_change_opt)) s7)

/-- `State::update_mut`, one full tick: the pre-end phases followed by the
death/level-completion section. Returns the final state, the dead flag and
the remembered tick-entry score. -/
def updateMutCore (config : Pacman) (default_board : Board) (s : StateCore)
    (buttons : Input) (rng : Rng) : Option (StateCore × Bool × Int) :=
  match updateMutPreEnd config s buttons rng with
  | none => none
  | some (u, dead) => some (endPhase config default_board dead s.score u, dead, s.score)

/-- Tile coordinates whose direct `tiles[ty][tx]` indexing succeeds (the
domain on which `collect_pellet`/`collect_power_pellet` do not panic). -/
def Board.inBoundsT (b : Board) (t : TilePoint) : Prop :=
  0 ≤ t.ty ∧ 0 ≤ t.tx ∧ t.tx.toNat < ((b.tiles[t.ty.toNat]?).getD []).length

instance (b : Board) (t : TilePoint) : Decidable (b.inBoundsT t) := by
  unfold Board.inBoundsT; infer_instance

/-- Walkability of the grid cell at row `y`, column `x`, `none` when the cell
does not exist; `computeJunctions` is determined by this data together with
the stored width and height. -/
def cellWalk (b : Board) (y x : Nat) : Option Bool :=
  (b.tiles[y]?.bind fun row => row[x]?).map Tile.walkable

/-- Modelled from the spec (claim C1's wording): collision events resolved in
encounter order with `EnemyCatch` deduplicated per enemy index, so an enemy
flagged caught twice in one tick scores only once. Used only as the
comparison point for the code's `processChanges`. -/
def specProcessChanges (config : Pacman) :
    List EnemyPlayerState → StateCore → List Nat → Bool × StateCore
  | [], s, _ => (false, s)
  | .Miss :: rest, s, seen => specProcessChanges config rest s seen
  | .PlayerDeath :: _, s, _ => (true, s)
  | .EnemyCatch eid :: rest, s, seen =>
    if eid ∈ seen then specProcessChanges config rest s seen
    else
      specProcessChanges config rest
        { s with
          score := s.score + config.score_increase_base_per_ghost_catch * s.enemies_caught_multiplier,
          enemies_caught_multiplier := s.enemies_caught_multiplier * 2,
          enemies := listModify s.enemies eid fun e => e.reset config.player_start s.board }
        (eid :: seen)

/-- Modelled from the spec: the spec's Mob data model carries an
immobilization countdown (enemies only); the compiled `Mob` struct,
reconstructed from the exhaustive literal in `Mob::new`, has no such field.
This spec-side extension exists only to state claim C4 faithfully. -/
structure SpecMob extends Mob where
  immobilized_timer : Int
deriving DecidableEq, Repr

/-- Modelled from the spec (claim C4's wording): enemy speed is zero while
the immobilization countdown is positive, reduced while vulnerable, the base
speed otherwise; afterwards the countdown is decremented if positive. -/
def specRecomputeEnemySpeed (config : Pacman) (e : SpecMob) : SpecMob :=
  let speed :=
    if 0 < e.immobilized_timer then 0
    else if e.vulnerable then config.enemy_starting_speed - 4
    else config.enemy_starting_speed
  let timer := if 0 < e.immobilized_timer then e.immobilized_timer - 1 else e.immobilized_timer
  { e with speed := speed, immobilized_timer := timer }

/-! Concrete fixtures used by witnesses and counterexamples. -/

/-- A 4-by-4 test layout: a short corridor with one pellet. -/
def rowsA : List String := ["####", "#ee#", "#=##", "####"]

/-- The tiles of `rowsA`. -/
def tilesA : List (List Tile) :=
  [[.Wall, .Wall, .Wall, .Wall],
   [.Wall, .Empty, .Empty, .Wall],
   [.Wall, .Pellet, .Wall, .Wall],
   [.Wall, .Wall, .Wall, .Wall]]

/-- The board parsed from `rowsA` (its junction set is empty). -/
def boardA : Board :=
  { tiles := tilesA, width := 4, height := 4,
    junctions := Board.computeJunctions ⟨tilesA, 4, 4, ∅⟩ }

/-- A small test configuration. -/
def cfgA : Pacman :=
  { board := rowsA, player_start := ⟨1, 1⟩, start_lives := 3, history_limit := 12,
    enemy_starting_speed := 4, life_gain_threshold := 10000,
    score_increase_per_pellet := 10, score_increase_per_power_pellet := 50,
    score_increase_base_per_ghost_catch := 200, player_speed := 30,
    vulnerable_time := 500, enemies := [] }

/-- A vulnerable random-walk enemy sitting on tile (1,1). -/
def enemyA : Mob :=
  { ai := .EnemyRandomMvmt ⟨1, 1⟩ .Up .Up, position := (TilePoint.mk 1 1).to_world,
    step := none, caught := false, vulnerable := true, speed := 4, history := [] }

/-- A state with the player and two vulnerable enemies stacked on tile (1,1)
during an open vulnerability window. -/
def sA : StateCore :=
  { lives := 3, score := 0, vulnerability_timer := 10, enemies_caught_multiplier := 1,
    lives_gained := 0, level := 1,
    player := Mob.new_player (TilePoint.mk 1 1).to_world 30,
    enemies := [enemyA, enemyA], board := boardA }

/-- A 4-by-4 layout whose tile (1,1) is a pellet on a 3-way junction. -/
def rowsB : List String := ["#e##", "#=e#", "#e##", "####"]

/-- The tiles of `rowsB`. -/
def tilesB : List (List Tile) :=
  [[.Wall, .Empty, .Wall, .Wall],
   [.Wall, .Pellet, .Empty, .Wall],
   [.Wall, .Empty, .Wall, .Wall],
   [.Wall, .Wall, .Wall, .Wall]]

/-- The board parsed from `rowsB` (junction set `{5}`). -/
def boardB : Board :=
  { tiles := tilesB, width := 4, height := 4,
    junctions := Board.computeJunctions ⟨tilesB, 4, 4, ∅⟩ }

/-- Configuration over `rowsB` with a tiny life-gain threshold. -/
def cfgB : Pacman := { cfgA with board := rowsB, player_start := ⟨2, 1⟩, life_gain_threshold := 5 }

/-- A non-vulnerable enemy on tile (1,1). -/
def enemyB : Mob := { enemyA with vulnerable := false }

/-- A state where the player stands on the pellet at (1,1) together with a
deadly enemy: the tick collects the pellet, crosses the life-gain threshold
and records a player death. -/
def sB : StateCore :=
  { sA with vulnerability_timer := 0, enemies := [enemyB], board := boardB }

/-- A tiny layout with no collectable tile at all. -/
def rowsC : List String := ["####", "#e##", "####"]

/-- The tiles of `rowsC`. -/
def tilesC : List (List Tile) :=
  [[.Wall, .Wall, .Wall, .Wall],
   [.Wall, .Empty, .Wall, .Wall],
   [.Wall, .Wall, .Wall, .Wall]]

/-- The board parsed from `rowsC`, already complete. -/
def boardC : Board :=
  { tiles := tilesC, width := 4, height := 3,
    junctions := Board.computeJunctions ⟨tilesC, 4, 3, ∅⟩ }

/-- Configuration whose configured layout is `rowsC`, distinct from the
default board used for the level-completion replacement. -/
def cfgC : Pacman := { cfgA with board := rowsC }

/-- A state on the already-complete `boardC` with no enemies. -/
def sC : StateCore := { sA with vulnerability_timer := 0, enemies := [], board := boardC }

/-- A single-row board of width 21 whose leftmost tile is a teleport. -/
def rowT : List (List Tile) := [[.Teleport] ++ List.replicate 20 .Wall]

/-- The width-21 teleport board. -/
def boardT : Board :=
  { tiles := rowT, width := 21, height := 1,
    junctions := Board.computeJunctions ⟨rowT, 21, 1, ∅⟩ }

/-- A player mob standing on the teleport tile (0,0) of `boardT`. -/
def mobT : Mob := Mob.new_player (TilePoint.mk 0 0).to_world 30

/-- A player mob standing on the non-junction pellet tile (1,2) of `boardA`
with an empty junction history. -/
def mobP : Mob := Mob.new_player (TilePoint.mk 1 2).to_world 30

/-- The event list recorded by the two collision sweeps of the `sA` tick. -/
def catchListA : List EnemyPlayerState :=
  [.EnemyCatch 0, .EnemyCatch 1, .EnemyCatch 0, .EnemyCatch 1]

/-! General lemmas about the geometry. -/

/-- Rust truncating division by 224 with the source's negative adjustment,
compared against Euclidean (here: floor) division. -/
theorem tdiv_adjust_eq (x : Int) :
    (if x < 0 then Int.tdiv x 224 - 1 else Int.tdiv x 224)
      = if x < 0 ∧ (224 : Int) ∣ x then x / 224 - 1 else x / 224 := by
  rcases lt_or_le x 0 with h | h
  · have h1 : Int.tdiv (-x) 224 = (-x) / 224 := Int.tdiv_eq_ediv (by omega) (by norm_num)
    have h2 : Int.tdiv x 224 = -((-x) / 224) := by
      rw [← h1, ← Int.neg_tdiv, neg_neg]
    rw [if_pos h, h2]
    by_cases hd : (224 : Int) ∣ x
    · rw [if_pos ⟨h, hd⟩]; omega
    · rw [if_neg (fun hc => hd hc.2)]; omega
  · have h1 : Int.tdiv x 224 = x / 224 := Int.tdiv_eq_ediv h (by norm_num)
    rw [if_neg (by omega), h1, if_neg (fun hc => absurd hc.1 (by omega))]

/-- Unfolded form of `WorldPoint::to_tile`. -/
theorem to_tile_eq (p : WorldPoint) :
    p.to_tile = ⟨if p.x < 0 then Int.tdiv p.x 224 - 1 else Int.tdiv p.x 224,
                 if p.y < 0 then Int.tdiv p.y 224 - 1 else Int.tdiv p.y 224⟩ :=
  rfl

/-- Unfolded form of `TilePoint::to_world`. -/
theorem to_world_eq (t : TilePoint) : t.to_world = ⟨t.tx * 224, t.ty * 224⟩ :=
  rfl

/-- The world-tile roundtrip is the identity on tiles with nonnegative
coordinates. -/
theorem to_world_to_tile {t : TilePoint} (hx : 0 ≤ t.tx) (hy : 0 ≤ t.ty) :
    t.to_world.to_tile = t := by
  have e1 : Int.tdiv (t.tx * 224) 224 = t.tx := by
    rw [Int.tdiv_eq_ediv (mul_nonneg hx (by norm_num)) (by norm_num)]
    omega
  have e2 : Int.tdiv (t.ty * 224) 224 = t.ty := by
    rw [Int.tdiv_eq_ediv (mul_nonneg hy (by norm_num)) (by norm_num)]
    omega
  rw [to_world_eq, to_tile_eq]
  simp only [if_neg (not_lt.mpr (mul_nonneg hx (by norm_num : (0:Int) ≤ 224))),
    if_neg (not_lt.mpr (mul_nonneg hy (by norm_num : (0:Int) ≤ 224))), e1, e2]

/-- Claim C8 (amended): world-to-tile conversion equals floor division by the
tile scale 224 except when a coordinate is negative and an exact multiple of
224, where the source yields one less than the floor; consequently the
tile-world-tile roundtrip is the identity exactly on the nonnegative
quadrant. -/
theorem c8_world_to_tile_flooring :
    (∀ w : WorldPoint,
      (¬ (w.x < 0 ∧ (224 : Int) ∣ w.x) → w.to_tile.tx = Int.fdiv w.x 224) ∧
      ((w.x < 0 ∧ (224 : Int) ∣ w.x) → w.to_tile.tx = Int.fdiv w.x 224 - 1) ∧
      (¬ (w.y < 0 ∧ (224 : Int) ∣ w.y) → w.to_tile.ty = Int.fdiv w.y 224) ∧
      ((w.y < 0 ∧ (224 : Int) ∣ w.y) → w.to_tile.ty = Int.fdiv w.y 224 - 1)) ∧
    (∀ t : TilePoint, 0 ≤ t.tx → 0 ≤ t.ty → t.to_world.to_tile = t) := by
  have hf : ∀ z : Int, Int.fdiv z 224 = z / 224 := fun z => Int.fdiv_eq_ediv z (by norm_num)
  refine ⟨fun w => ?_, fun t hx hy => to_world_to_tile hx hy⟩
  have ex : w.to_tile.tx = if w.x < 0 ∧ (224 : Int) ∣ w.x then w.x / 224 - 1 else w.x / 224 := by
    rw [to_tile_eq]; exact tdiv_adjust_eq w.x
  have ey : w.to_tile.ty = if w.y < 0 ∧ (224 : Int) ∣ w.y then w.y / 224 - 1 else w.y / 224 := by
    rw [to_tile_eq]; exact tdiv_adjust_eq w.y
  refine ⟨fun h => ?_, fun h => ?_, fun h => ?_, fun h => ?_⟩
  · rw [ex, if_neg h, hf]
  · rw [ex, if_pos h, hf]
  · rw [ey, if_neg h, hf]
  · rw [ey, if_pos h, hf]

/-- Witness for `c8_world_to_tile_flooring` at concrete points. -/
theorem c8_witness :
    (WorldPoint.to_tile ⟨-100, 5⟩).tx = Int.fdiv (-100) 224 ∧
    (WorldPoint.to_tile ⟨-448, 5⟩).tx = Int.fdiv (-448) 224 - 1 ∧
    (TilePoint.to_world ⟨3, 2⟩).to_tile = ⟨3, 2⟩ :=
  ⟨(c8_world_to_tile_flooring.1 ⟨-100, 5⟩).1 (by decide),
   (c8_world_to_tile_flooring.1 ⟨-448, 5⟩).2.1 (by decide),
   c8_world_to_tile_flooring.2 ⟨3, 2⟩ (by decide) (by decide)⟩

/-- Claim C8 counterexample: at the exact negative multiple -224 the source
yields tile -2 while the floor is -1, and the roundtrip fails on tile -1. -/
theorem c8_counterexample :
    WorldPoint.to_tile ⟨-224, 0⟩ = ⟨-2, 0⟩ ∧ Int.fdiv (-224) 224 = -1 ∧
      TilePoint.to_world ⟨-1, 0⟩ = ⟨-224, 0⟩ ∧
      (TilePoint.to_world ⟨-1, 0⟩).to_tile ≠ ⟨-1, 0⟩ :=
  ⟨by decide, by decide, by decide, by decide⟩

/-- Claim C6 (amended): `Mob::teleport` cancels the in-flight step and moves
the mob, in the same row (for nonnegative rows), to the hardcoded column 19
when it was in column 0 and to column 1 otherwise; the destination is
independent of the board, so it is not in general the column mirrored to the
opposite horizontal edge. -/
theorem c6_teleport_hardcoded :
    ∀ (m : Mob) (b b' : Board), 0 ≤ m.position.to_tile.ty →
      (m.teleport b).step = none ∧
      (m.teleport b).position.to_tile =
        ⟨if m.position.to_tile.tx = 0 then 19 else 1, m.position.to_tile.ty⟩ ∧
      m.teleport b = m.teleport b' := by
  intro m b b' hy
  refine ⟨rfl, ?_, rfl⟩
  have hpos : (m.teleport b).position =
      (TilePoint.mk (if m.position.to_tile.tx = 0 then 19 else 1) m.position.to_tile.ty).to_world :=
    rfl
  rw [hpos]
  exact to_world_to_tile (by split <;> norm_num) hy

/-- Witness for `c6_teleport_hardcoded` on the concrete teleport board. -/
theorem c6_witness :
    (mobT.teleport boardT).step = none ∧
    (mobT.teleport boardT).position.to_tile = ⟨19, 0⟩ ∧
    mobT.teleport boardT = mobT.teleport boardA := by
  have h := c6_teleport_hardcoded mobT boardT boardA (by decide)
  exact ⟨h.1, by rw [h.2.1]; decide, h.2.2⟩

/-- Claim C6 counterexample: on the width-21 board `boardT`, a mob on the
teleport tile (0,0) is moved to column 19, not to the mirrored edge column
20. -/
theorem c6_counterexample :
    boardT.get_tile ⟨0, 0⟩ = Tile.Teleport ∧
    (mobT.teleport boardT).step = none ∧
    (mobT.teleport boardT).position.to_tile = ⟨19, 0⟩ ∧
    (boardT.width : Int) - 1 - 0 = 20 ∧
    (⟨19, 0⟩ : TilePoint) ≠ ⟨20, 0⟩ :=
  ⟨by decide, rfl, by decide, by decide, by decide⟩

/-! Lemmas about board parsing. -/

/-- An unmapped character parses to the error carrying itself. -/
theorem new_from_char_of_not_code {c : Char} (h : isTileCode c = false) :
    Tile.new_from_char c = Except.error c := by
  unfold isTileCode at h
  split at h
  · exact absurd h (by simp)
  · rename_i e heq
    have : e = c := by
      unfold Tile.new_from_char at heq
      split_ifs at heq <;> simp_all
    rw [heq, this]

/-- A mapped character parses to some tile. -/
theorem new_from_char_of_code {c : Char} (h : isTileCode c = true) :
    ∃ t, Tile.new_from_char c = Except.ok t := by
  unfold isTileCode at h
  split at h
  · rename_i t heq; exact ⟨t, heq⟩
  · exact absurd h (by simp)

/-- A char-list of mapped codes parses to a row of the same length. -/
theorem parseChars_ok {cs : List Char} (h : ∀ c ∈ cs, isTileCode c = true) :
    ∃ ts, parseChars cs = Except.ok ts ∧ ts.length = cs.length := by
  induction cs with
  | nil => exact ⟨[], rfl, rfl⟩
  | cons c cs ih =>
    obtain ⟨t, ht⟩ := new_from_char_of_code (h c (by simp))
    obtain ⟨ts, hts, hlen⟩ := ih fun c hc => h c (by simp [hc])
    exact ⟨t :: ts, by simp [parseChars, ht, hts], by simp [hlen]⟩

/-- A parse error names an unmapped character of the input. -/
theorem parseChars_error_spec {cs : List Char} {e : Char}
    (h : parseChars cs = Except.error e) : e ∈ cs ∧ isTileCode e = false := by
  induction cs with
  | nil => simp [parseChars] at h
  | cons c cs ih =>
    rw [parseChars] at h
    rcases hc : Tile.new_from_char c with e' | t
    · have hec : e' = c := by
        unfold Tile.new_from_char at hc
        split_ifs at hc <;> simp_all
      rw [hc] at h
      simp only [Except.error.injEq] at h
      subst h; subst hec
      refine ⟨by simp, ?_⟩
      unfold isTileCode
      rw [hc]
    · rw [hc] at h
      rcases hcs : parseChars cs with e' | ts
      · rw [hcs] at h
        simp only [Except.error.injEq] at h
        subst h
        obtain ⟨h1, h2⟩ := ih hcs
        exact ⟨by simp [h1], h2⟩
      · rw [hcs] at h; cases h

/-- An input containing an unmapped character fails to parse. -/
theorem parseChars_isErr {cs : List Char} (h : ∃ c ∈ cs, isTileCode c = false) :
    ∃ e, parseChars cs = Except.error e := by
  induction cs with
  | nil => simp at h
  | cons c cs ih =>
    rw [parseChars]
    rcases hc : Tile.new_from_char c with e | t
    · exact ⟨e, rfl⟩
    · obtain ⟨c', hc', hbad⟩ := h
      rcases List.mem_cons.mp hc' with rfl | hmem
      · rw [new_from_char_of_not_code hbad] at hc; cases hc
      · obtain ⟨e, he⟩ := ih ⟨c', hmem, hbad⟩
        exact ⟨e, by rw [he]⟩

/-- Length of the char list of a string, named to keep statements stable. -/
def strLen (s : String) : Nat := s.toList.length

/-- Rows of mapped codes parse to a grid with the source dimensions. -/
theorem parseRows_ok {ls : List String}
    (h : ∀ l ∈ ls, ∀ c ∈ l.toList, isTileCode c = true) :
    ∃ tss, parseRows ls = Except.ok tss ∧ tss.length = ls.length ∧
      ∀ i : Nat, (tss[i]?).map List.length = (ls[i]?).map strLen := by
  induction ls with
  | nil => exact ⟨[], rfl, rfl, fun i => rfl⟩
  | cons l ls ih =>
    obtain ⟨ts, hts, hlen⟩ := @parseChars_ok l.toList (h l (by simp))
    obtain ⟨tss, htss, hlen2, hrow⟩ := ih fun l' hl' => h l' (by simp [hl'])
    have hr : parseRow l = Except.ok ts := hts
    refine ⟨ts :: tss, ?_, by simp [hlen2], fun i => ?_⟩
    · rw [parseRows, hr, htss]
    · cases i with
      | zero => simpa [strLen] using hlen
      | succ n => simpa using hrow n

/-- A row-parse error names an unmapped character of the input grid. -/
theorem parseRows_error_spec {ls : List String} {e : Char}
    (h : parseRows ls = Except.error e) :
    (∃ l ∈ ls, e ∈ l.toList) ∧ isTileCode e = false := by
  induction ls with
  | nil => simp [parseRows] at h
  | cons l ls ih =>
    rw [parseRows] at h
    rcases hl : parseRow l with e' | ts
    · rw [hl] at h
      cases h
      obtain ⟨h1, h2⟩ := parseChars_error_spec hl
      exact ⟨⟨l, by simp, h1⟩, h2⟩
    · rw [hl] at h
      rcases hls : parseRows ls with e' | tss
      · rw [hls] at h
        cases h
        obtain ⟨⟨l', hl', hmem⟩, h2⟩ := ih hls
        exact ⟨⟨l', by simp [hl'], hmem⟩, h2⟩
      · rw [hls] at h; cases h

/-- A grid containing an unmapped character fails to parse. -/
theorem parseRows_isErr {ls : List String}
    (h : ∃ l ∈ ls, ∃ c ∈ l.toList, isTileCode c = false) :
    ∃ e, parseRows ls = Except.error e := by
  induction ls with
  | nil => simp at h
  | cons l ls ih =>
    rw [parseRows]
    rcases hl : parseRow l with e | ts
    · exact ⟨e, rfl⟩
    · obtain ⟨l', hl', c, hc, hbad⟩ := h
      rcases List.mem_cons.mp hl' with rfl | hmem
      · obtain ⟨e, he⟩ := parseChars_isErr ⟨c, hc, hbad⟩
        rw [parseRow] at hl; rw [he] at hl; cases hl
      · obtain ⟨e, he⟩ := ih ⟨l', hmem, c, hc, hbad⟩
        rw [he]
        exact ⟨e, rfl⟩

/-- Claim C7 (amended): board construction fails with an error carrying an
offending unmapped character whenever the grid contains one, and succeeds on
every nonempty grid of mapped codes, with height the number of rows and
width the length of the first row (which is the common source width exactly
when the grid is rectangular — the source performs no row-length check). -/
theorem c7_try_new :
    (∀ lines : List String,
      (∃ l ∈ lines, ∃ c ∈ l.toList, isTileCode c = false) →
      ∃ c, (∃ l ∈ lines, c ∈ l.toList) ∧ Tile.new_from_char c = Except.error c ∧
        Board.try_new lines = some (Except.error c)) ∧
    (∀ lines : List String, lines ≠ [] →
      (∀ l ∈ lines, ∀ c ∈ l.toList, isTileCode c = true) →
      ∃ b, Board.try_new lines = some (Except.ok b) ∧
        b.height = lines.length ∧ b.width = strLen (lines.headD "")) := by
  constructor
  · intro lines hbad
    obtain ⟨e, he⟩ := parseRows_isErr hbad
    obtain ⟨hmem, hcode⟩ := parseRows_error_spec he
    exact ⟨e, hmem, new_from_char_of_not_code hcode,
      by rw [Board.try_new, he]⟩
  · intro lines hne hgood
    obtain ⟨tss, htss, hlen, hrow⟩ := parseRows_ok hgood
    match lines, tss, hlen with
    | l0 :: ls, [], hlen => simp at hlen
    | l0 :: ls, t0 :: ts, hlen =>
      refine ⟨_, by rw [Board.try_new, htss], by simpa using hlen, ?_⟩
      have h0 := hrow 0
      simp only [List.getElem?_cons_zero, Option.map_some'] at h0
      simpa using h0

/-- Witness for `c7_try_new`: one failing grid and one succeeding grid. -/
theorem c7_witness :
    (∃ c, (∃ l ∈ ["ex"], c ∈ l.toList) ∧ Tile.new_from_char c = Except.error c ∧
      Board.try_new ["ex"] = some (Except.error c)) ∧
    (∃ b, Board.try_new rowsA = some (Except.ok b) ∧
      b.height = rowsA.length ∧ b.width = strLen (rowsA.headD "")) :=
  ⟨c7_try_new.1 ["ex"] (by decide), c7_try_new.2 rowsA (by decide) (by decide)⟩

/-- Claim C7 counterexample: two rows of different lengths parse successfully
(no malformed-grid check exists); the width comes from the first row. -/
theorem c7_counterexample :
    "e".toList.length ≠ "ee".toList.length ∧
    (Board.try_new ["e", "ee"]).map (fun r =>
        match r with
        | .ok b => some (b.width, b.height)
        | .error _ => none)
      = some (some (1, 2)) :=
  ⟨by decide, by decide⟩

/-! Claims C4 and C2: the per-tick speed and vulnerability phases. -/

/-- Configuration with the default base enemy speed 18. -/
def cfg18 : Pacman := { cfgA with enemy_starting_speed := 18 }

/-- State with one non-vulnerable enemy. -/
def s18 : StateCore := { sA with enemies := [enemyB] }

/-- Spec-side enemy carrying a positive immobilization countdown whose
erasure is the code-side enemy `enemyB`. -/
def specEnemyFrozen : SpecMob := { toMob := enemyB, immobilized_timer := 5 }

/-- Claim C4 (amended): the speed-recomputation phase sets each enemy's speed
to the base enemy speed, reduced by 4 while vulnerable, and changes nothing
else; no immobilization state exists in the compiled `Mob`, so no enemy is
ever frozen to speed zero and no countdown is decremented. -/
theorem c4_enemy_speed :
    ∀ (config : Pacman) (s : StateCore) (i : Nat) (e : Mob),
      s.enemies[i]? = some e →
      (recomputeEnemySpeeds config s).enemies[i]? =
        some { e with speed := if e.vulnerable then config.enemy_starting_speed - 4
                               else config.enemy_starting_speed } ∧
      (recomputeEnemySpeeds config s).player = s.player ∧
      (recomputeEnemySpeeds config s).board = s.board ∧
      (recomputeEnemySpeeds config s).vulnerability_timer = s.vulnerability_timer := by
  intro config s i e hi
  refine ⟨?_, rfl, rfl, rfl⟩
  by_cases hv : e.vulnerable
  · simp [recomputeEnemySpeeds, List.getElem?_map, hi, Mob.change_speed, hv]
  · simp [recomputeEnemySpeeds, List.getElem?_map, hi, Mob.change_speed, hv]

/-- Witness for `c4_enemy_speed` on the concrete enemy. -/
theorem c4_witness :
    (recomputeEnemySpeeds cfg18 s18).enemies[0]? =
      some { enemyB with speed := if enemyB.vulnerable then cfg18.enemy_starting_speed - 4
                                  else cfg18.enemy_starting_speed } ∧
    (recomputeEnemySpeeds cfg18 s18).player = s18.player := by
  have h := c4_enemy_speed cfg18 s18 0 enemyB rfl
  exact ⟨h.1, h.2.1⟩

/-- Claim C4 counterexample: for the frozen spec-side enemy the claimed rule
yields speed 0 and decrements the countdown to 4, while the code gives its
erasure the base speed 18 and carries no countdown at all. -/
theorem c4_counterexample :
    (specRecomputeEnemySpeed cfg18 specEnemyFrozen).speed = 0 ∧
    (specRecomputeEnemySpeed cfg18 specEnemyFrozen).immobilized_timer = 4 ∧
    specEnemyFrozen.toMob = enemyB ∧
    (recomputeEnemySpeeds cfg18 s18).enemies[0]?.map (fun e => e.speed) = some 18 ∧
    (0 : Int) ≠ 18 :=
  ⟨by decide, by decide, rfl, by decide, by decide⟩

/-- Claim C2: collecting a power pellet arms the countdown to the configured
duration, resets the catch multiplier to 1 and marks every enemy vulnerable;
and because the clear-at-zero phase runs before the decrement phase, a
countdown entering a tick at 1 leaves every enemy untouched through the
teleport and decrement phases while reaching 0, and the clear phase of a
tick entered at 0 sets every enemy's vulnerable flag to false. -/
theorem c2_vulnerability_window :
    (∀ (config : Pacman) (s : StateCore) (u : BoardUpdate),
      0 < u.power_pellets_collected →
      (applyScoreChange config s u).vulnerability_timer = config.vulnerable_time ∧
      (applyScoreChange config s u).enemies_caught_multiplier = 1 ∧
      ∀ e ∈ (applyScoreChange config s u).enemies, e.vulnerable = true) ∧
    (∀ s : StateCore, s.vulnerability_timer = 1 →
      (decrementVuln (teleportPlayerIfOnTp (clearVulnIfZero s))).enemies = s.enemies ∧
      (decrementVuln (teleportPlayerIfOnTp (clearVulnIfZero s))).vulnerability_timer = 0) ∧
    (∀ s : StateCore, s.vulnerability_timer = 0 →
      ∀ e ∈ (clearVulnIfZero s).enemies, e.vulnerable = false) := by
  refine ⟨fun config s u hu => ?_, fun s hs => ?_, fun s hs => ?_⟩
  · unfold applyScoreChange
    rw [if_pos hu]
    refine ⟨rfl, rfl, fun e he => ?_⟩
    simp only [List.mem_map] at he
    obtain ⟨e', _, rfl⟩ := he
    rfl
  · have hX : (teleportPlayerIfOnTp (clearVulnIfZero s)).enemies = s.enemies ∧
        (teleportPlayerIfOnTp (clearVulnIfZero s)).vulnerability_timer = 1 := by
      have hcl : clearVulnIfZero s = s := by
        unfold clearVulnIfZero; rw [if_neg (by omega)]
      rw [hcl]; unfold teleportPlayerIfOnTp
      split
      · exact ⟨rfl, hs⟩
      · exact ⟨rfl, hs⟩
    unfold decrementVuln
    rw [if_pos (by rw [hX.2]; norm_num)]
    exact ⟨hX.1, by rw [hX.2]; rfl⟩
  · unfold clearVulnIfZero
    rw [if_pos hs]
    intro e he
    simp only [List.mem_map] at he
    obtain ⟨e', _, rfl⟩ := he
    rfl

/-- Witness for `c2_vulnerability_window` on concrete states. -/
theorem c2_witness :
    (applyScoreChange cfgA sA
        { BoardUpdate.new with power_pellets_collected := 1 }).vulnerability_timer
      = cfgA.vulnerable_time ∧
    (decrementVuln (teleportPlayerIfOnTp (clearVulnIfZero
        { sA with vulnerability_timer := 1 }))).vulnerability_timer = 0 ∧
    ∀ e ∈ (clearVulnIfZero { sA with vulnerability_timer := 0 }).enemies,
      e.vulnerable = false :=
  ⟨(c2_vulnerability_window.1 cfgA sA _ (by decide)).1,
   (c2_vulnerability_window.2.1 { sA with vulnerability_timer := 1 } rfl).2,
   c2_vulnerability_window.2.2 { sA with vulnerability_timer := 0 } rfl⟩

/-! Claim C1: the event-resolution loop. -/

/-- Catch sequences whose consecutive indices differ (so the `recently_caught`
filter never fires) score geometrically: base times multiplier times
`2 ^ n - 1` in total, and the multiplier is multiplied by `2 ^ n`. -/
theorem processChanges_catches (config : Pacman) :
    ∀ (eids : List Nat) (s : StateCore) (r : Nat), List.Chain' (· ≠ ·) (r :: eids) →
      (processChanges config (eids.map EnemyPlayerState.EnemyCatch) s r).1 = false ∧
      (processChanges config (eids.map EnemyPlayerState.EnemyCatch) s r).2.score =
        s.score + config.score_increase_base_per_ghost_catch * s.enemies_caught_multiplier
          * (2 ^ eids.length - 1) ∧
      (processChanges config (eids.map EnemyPlayerState.EnemyCatch) s r).2.enemies_caught_multiplier
        = s.enemies_caught_multiplier * 2 ^ eids.length := by
  intro eids
  induction eids with
  | nil =>
    intro s r _
    exact ⟨rfl, by simp [processChanges], by simp [processChanges]⟩
  | cons e rest ih =>
    intro s r h
    have hne : r ≠ e := (List.chain'_cons.mp h).1
    have hch : List.Chain' (· ≠ ·) (e :: rest) := (List.chain'_cons.mp h).2
    rw [List.map_cons]
    simp only [processChanges]
    rw [if_pos hne]
    have hrec := ih { s with
      score := s.score + config.score_increase_base_per_ghost_catch * s.enemies_caught_multiplier,
      enemies_caught_multiplier := s.enemies_caught_multiplier * 2,
      enemies := listModify s.enemies e fun en => en.reset config.player_start s.board } e hch
    refine ⟨hrec.1, ?_, ?_⟩
    · rw [hrec.2.1]
      show s.score + config.score_increase_base_per_ghost_catch * s.enemies_caught_multiplier
          + config.score_increase_base_per_ghost_catch * (s.enemies_caught_multiplier * 2)
            * (2 ^ rest.length - 1)
        = s.score + config.score_increase_base_per_ghost_catch * s.enemies_caught_multiplier
            * (2 ^ (rest.length + 1) - 1)
      rw [pow_succ]
      ring
    · rw [hrec.2.2]
      show s.enemies_caught_multiplier * 2 * 2 ^ rest.length
        = s.enemies_caught_multiplier * 2 ^ (rest.length + 1)
      rw [pow_succ]
      ring

/-- Claim C1 (amended): events are resolved in encounter order; a
`PlayerDeath` halts the loop at once, discarding the rest; an `EnemyCatch`
is skipped only when its index equals the immediately previously processed
catch, so a run of consecutive-distinct catches all score, each awarding
`base * multiplier` and doubling the multiplier (a geometric total), and each
processed catch resets its enemy to its configured start with the step,
history, vulnerability and caught flags cleared.  The loop does not
deduplicate per enemy index: the same enemy scores again whenever another
catch intervenes (see the counterexample). -/
theorem c1_collision_resolution :
    (∀ (config : Pacman) (rest : List EnemyPlayerState) (s : StateCore) (r : Nat),
      processChanges config (EnemyPlayerState.PlayerDeath :: rest) s r = (true, s)) ∧
    (∀ (config : Pacman) (eids : List Nat) (s : StateCore) (r : Nat),
      List.Chain' (· ≠ ·) (r :: eids) →
      (processChanges config (eids.map EnemyPlayerState.EnemyCatch) s r).1 = false ∧
      (processChanges config (eids.map EnemyPlayerState.EnemyCatch) s r).2.score =
        s.score + config.score_increase_base_per_ghost_catch * s.enemies_caught_multiplier
          * (2 ^ eids.length - 1) ∧
      (processChanges config (eids.map EnemyPlayerState.EnemyCatch) s r).2.enemies_caught_multiplier
        = s.enemies_caught_multiplier * 2 ^ eids.length) ∧
    (∀ (m : Mob) (p : TilePoint) (b : Board) (start : TilePoint) (sd d : Direction),
      m.ai = .EnemyRandomMvmt start sd d →
      (m.reset p b).position = start.to_world ∧ (m.reset p b).vulnerable = false ∧
      (m.reset p b).caught = false ∧ (m.reset p b).step = none ∧
      (m.reset p b).history = []) := by
  refine ⟨fun config rest s r => rfl,
    fun config eids s r h => processChanges_catches config eids s r h,
    fun m p b start sd d hai => ?_⟩
  simp [Mob.reset, hai]

/-- Witness for `c1_collision_resolution` on concrete inputs. -/
theorem c1_witness :
    processChanges cfgA [EnemyPlayerState.PlayerDeath, EnemyPlayerState.EnemyCatch 0] sA 5
      = (true, sA) ∧
    (processChanges cfgA (List.map EnemyPlayerState.EnemyCatch [0, 1]) sA 5).2.score =
      sA.score + cfgA.score_increase_base_per_ghost_catch * sA.enemies_caught_multiplier
        * (2 ^ 2 - 1) ∧
    (enemyA.reset cfgA.player_start boardA).vulnerable = false := by
  have h1 := c1_collision_resolution.1 cfgA [EnemyPlayerState.EnemyCatch 0] sA 5
  have h2 := c1_collision_resolution.2.1 cfgA [0, 1] sA 5
    (List.Chain'.cons (by norm_num) (List.Chain'.cons (by norm_num) (List.chain'_singleton 1)))
  have h3 := c1_collision_resolution.2.2 enemyA cfgA.player_start boardA ⟨1, 1⟩ .Up .Up rfl
  exact ⟨h1, h2.2.1, h3.2.1⟩

/-- Claim C1 counterexample: in the `sA` tick both stacked vulnerable enemies
are recorded by both collision sweeps, the loop processes the four events
`[Catch 0, Catch 1, Catch 0, Catch 1]` in full — each enemy scores twice —
for a total of 200+400+800+1600 = 3000, while the claimed per-enemy-index
deduplication would award only 200+400 = 600. -/
theorem c1_counterexample :
    (updateMutCore cfgA boardA sA Input.default []).map
        (fun r => (r.1.score, r.1.enemies_caught_multiplier, r.2.1)) = some (3000, 16, false) ∧
    (processChanges cfgA catchListA sA 5).2.score = 3000 ∧
    (specProcessChanges cfgA catchListA sA []).2.score = 600 ∧
    (3000 : Int) ≠ 600 :=
  ⟨by decide, by decide, by decide, by decide⟩

/-! Field-preservation lemmas for the tick phases, feeding claims C3, C5
and C9. -/

/-- The score/vulnerability phases preserve lives, level and the life
counter. -/
theorem applyScoreChange_lives_level (config : Pacman) (s : StateCore) (u : BoardUpdate) :
    (applyScoreChange config s u).lives = s.lives ∧
    (applyScoreChange config s u).level = s.level ∧
    (applyScoreChange config s u).lives_gained = s.lives_gained := by
  unfold applyScoreChange
  split
  · exact ⟨rfl, rfl, rfl⟩
  · exact ⟨rfl, rfl, rfl⟩

/-- The clear-at-zero phase preserves lives, level and the life counter. -/
theorem clearVulnIfZero_lives_level (s : StateCore) :
    (clearVulnIfZero s).lives = s.lives ∧ (clearVulnIfZero s).level = s.level ∧
    (clearVulnIfZero s).lives_gained = s.lives_gained := by
  unfold clearVulnIfZero
  split
  · exact ⟨rfl, rfl, rfl⟩
  · exact ⟨rfl, rfl, rfl⟩

/-- The player-teleport phase preserves lives, level and the life counter. -/
theorem teleportPlayerIfOnTp_lives_level (s : StateCore) :
    (teleportPlayerIfOnTp s).lives = s.lives ∧ (teleportPlayerIfOnTp s).level = s.level ∧
    (teleportPlayerIfOnTp s).lives_gained = s.lives_gained := by
  unfold teleportPlayerIfOnTp
  split
  · exact ⟨rfl, rfl, rfl⟩
  · exact ⟨rfl, rfl, rfl⟩

/-- The countdown decrement preserves lives, level and the life counter. -/
theorem decrementVuln_lives_level (s : StateCore) :
    (decrementVuln s).lives = s.lives ∧ (decrementVuln s).level = s.level ∧
    (decrementVuln s).lives_gained = s.lives_gained := by
  unfold decrementVuln
  split
  · exact ⟨rfl, rfl, rfl⟩
  · exact ⟨rfl, rfl, rfl⟩

/-- Enemy movement preserves every scalar state field. -/
theorem moveEnemies_fields {config : Pacman} {s : StateCore} {rng : Rng}
    {s' : StateCore} {rng' : Rng} (h : moveEnemies config s rng = some (s', rng')) :
    s'.lives = s.lives ∧ s'.level = s.level ∧ s'.lives_gained = s.lives_gained ∧
    s'.score = s.score ∧ s'.enemies_caught_multiplier = s.enemies_caught_multiplier ∧
    s'.player = s.player := by
  unfold moveEnemies at h
  rcases hg : moveEnemiesGo config s.player s.enemies s.board rng with _ | ⟨es', b', r'⟩
  · rw [hg] at h; cases h
  · rw [hg] at h
    cases h
    exact ⟨rfl, rfl, rfl, rfl, rfl, rfl⟩

/-- The event-resolution loop preserves lives, level, the life counter, the
player and the board. -/
theorem processChanges_fields (config : Pacman) :
    ∀ (l : List EnemyPlayerState) (s : StateCore) (r : Nat),
      (processChanges config l s r).2.lives = s.lives ∧
      (processChanges config l s r).2.level = s.level ∧
      (processChanges config l s r).2.lives_gained = s.lives_gained ∧
      (processChanges config l s r).2.player = s.player ∧
      (processChanges config l s r).2.board = s.board ∧
      (processChanges config l s r).2.vulnerability_timer = s.vulnerability_timer := by
  intro l
  induction l with
  | nil => exact fun s r => ⟨rfl, rfl, rfl, rfl, rfl, rfl⟩
  | cons c rest ih =>
    intro s r
    match c with
    | .Miss => simpa only [processChanges] using ih s r
    | .PlayerDeath => exact ⟨rfl, rfl, rfl, rfl, rfl, rfl⟩
    | .EnemyCatch eid =>
      simp only [processChanges]
      split
      · exact ih _ eid
      · exact ih s r

/-- The life-gain check preserves level, score, player, board and enemies,
and raises lives by at most one. -/
theorem lifeGain_fields (config : Pacman) (s : StateCore) :
    (lifeGain config s).level = s.level ∧
    ((lifeGain config s).lives = s.lives ∨ (lifeGain config s).lives = s.lives + 1) ∧
    (lifeGain config s).score = s.score ∧ (lifeGain config s).player = s.player ∧
    (lifeGain config s).board = s.board ∧ (lifeGain config s).enemies = s.enemies := by
  unfold lifeGain
  split
  · exact ⟨rfl, Or.inr rfl, rfl, rfl, rfl, rfl⟩
  · exact ⟨rfl, Or.inl rfl, rfl, rfl, rfl, rfl⟩

/-- The pre-move phases preserve lives, level and the life counter. -/
theorem preMoveState_lives_level (config : Pacman) (s : StateCore) (player' : Mob)
    (board' : Board) (score_change_opt : Option BoardUpdate) :
    (preMoveState config s player' board' score_change_opt).lives = s.lives ∧
    (preMoveState config s player' board' score_change_opt).level = s.level := by
  unfold preMoveState
  set s2 : StateCore :=
    (match score_change_opt with
     | some score_change =>
       applyScoreChange config { s with player := player', board := board' } score_change
     | none => { s with player := player', board := board' }) with hs2
  have h2 : s2.lives = s.lives ∧ s2.level = s.level := by
    rw [hs2]
    rcases score_change_opt with _ | sc
    · exact ⟨rfl, rfl⟩
    · exact ⟨(applyScoreChange_lives_level config _ sc).1,
        (applyScoreChange_lives_level config _ sc).2.1⟩
  have a := clearVulnIfZero_lives_level s2
  have b := teleportPlayerIfOnTp_lives_level (clearVulnIfZero s2)
  have c := decrementVuln_lives_level (teleportPlayerIfOnTp (clearVulnIfZero s2))
  exact ⟨by rw [c.1, b.1, a.1, h2.1], by rw [c.2.1, b.2.1, a.2.1, h2.2]⟩

/-- The post-move tail preserves the level and raises lives by at most one. -/
theorem postMoveAssemble_level_lives (config : Pacman)
    (changes1 : List EnemyPlayerState) (s7 : StateCore) :
    (postMoveAssemble config changes1 s7).1.level = s7.level ∧
    ((postMoveAssemble config changes1 s7).1.lives = s7.lives ∨
      (postMoveAssemble config changes1 s7).1.lives = s7.lives + 1) := by
  unfold postMoveAssemble
  have h8 := processChanges_fields config (changes1 ++ collisionPass s7)
    (applyEnemyTeleports s7 (teleportVec s7)) 5
  have h9 := lifeGain_fields config
    (processChanges config (changes1 ++ collisionPass s7)
      (applyEnemyTeleports s7 (teleportVec s7)) 5).2
  refine ⟨by rw [h9.1, h8.2.1]; rfl, ?_⟩
  rcases h9.2.1 with hl | hl
  · left; rw [hl, h8.1]; rfl
  · right; rw [hl, h8.1]; rfl

/-- Through the pre-end phases of a tick the level is unchanged and lives
rise by at most the one granted by the life-gain check. -/
theorem updateMutPreEnd_level_lives {config : Pacman} {s : StateCore} {buttons : Input}
    {rng : Rng} {u : StateCore} {dead : Bool}
    (h : updateMutPreEnd config s buttons rng = some (u, dead)) :
    u.level = s.level ∧ (u.lives = s.lives ∨ u.lives = s.lives + 1) := by
  rw [updateMutPreEnd] at h
  split at h
  · cases h
  · rename_i player' board' rng1 scOpt hp
    split at h
    · cases h
    · rename_i s7 rng2 hmv
      injection h with h'
      have hu : (postMoveAssemble config
          (collisionPass (preMoveState config s player' board' scOpt)) s7).1 = u :=
        congrArg Prod.fst h'
      have hpm := postMoveAssemble_level_lives config
        (collisionPass (preMoveState config s player' board' scOpt)) s7
      have hmv' := moveEnemies_fields hmv
      have hpre := preMoveState_lives_level config s player' board' scOpt
      have hlvl : s7.level = s.level := by
        rw [hmv'.2.1]
        exact hpre.2
      have hlv : s7.lives = s.lives := by
        rw [hmv'.1]
        exact hpre.1
      constructor
      · rw [← hu, hpm.1, hlvl]
      · rcases hpm.2 with hl | hl
        · left; rw [← hu, hl, hlv]
        · right; rw [← hu, hl, hlv]

/-! Claims C3 and C5: the death/level-completion section. -/

/-- Claim C3 (amended): on a tick whose event resolution records a
`PlayerDeath`, the final score equals the tick-entry score (collected pellets
are rolled back), only the player is reset (the enemies are exactly those of
the pre-end state), and lives end one below their post-life-gain value —
which is one below the tick-entry value except when the life-gain check
fired in the same tick, in which case lives end unchanged. -/
theorem c3_death_tick :
    ∀ (config : Pacman) (defaultB : Board) (s : StateCore) (buttons : Input) (rng : Rng)
      (u : StateCore),
      updateMutPreEnd config s buttons rng = some (u, true) →
      ∃ s', updateMutCore config defaultB s buttons rng = some (s', true, s.score) ∧
        s'.score = s.score ∧
        s'.lives = u.lives - 1 ∧
        (u.lives = s.lives ∨ u.lives = s.lives + 1) ∧
        s'.enemies = u.enemies ∧
        s'.player = u.player.reset config.player_start u.board ∧
        s'.level = u.level ∧ u.level = s.level := by
  intro config defaultB s buttons rng u h
  have hp := updateMutPreEnd_level_lives h
  refine ⟨endPhase config defaultB true s.score u, ?_, rfl, rfl, hp.2, rfl, rfl, rfl, hp.1⟩
  rw [updateMutCore, h]

/-- Witness for `c3_death_tick`: the concrete death tick of `sB`. -/
theorem c3_witness :
    (updateMutCore cfgB boardB sB Input.default []).map
        (fun r => (r.1.score, r.2.1, r.2.2)) = some (sB.score, true, sB.score) := by
  obtain ⟨s', hcore, hscore, -⟩ := c3_death_tick cfgB boardB sB Input.default [] _ rfl
  rw [hcore]
  simp [hscore]

/-- Claim C3 counterexample: in the `sB` tick the player collects a pellet,
crosses the life-gain threshold and dies; the score rolls back to 0, but
lives end at 3 = 3, not at 3 - 1 — the granted life cancels the death
decrement. -/
theorem c3_counterexample :
    (updateMutCore cfgB boardB sB Input.default []).map
        (fun r => (r.1.lives, r.1.score, r.2.1)) = some (3, 0, true) ∧
    sB.lives = 3 ∧ sB.score = 0 ∧ (3 : Int) ≠ 3 - 1 :=
  ⟨by decide, rfl, rfl, by decide⟩

/-- Claim C5 (amended): on a no-death tick whose post-resolution board has no
collectable tile left, the update resets the player and all enemies,
increments the level, clears the vulnerability countdown, and replaces the
board with the global default board (`Board::fast_new`) — not with a parse
of the layout supplied in the configuration, from which it can differ. -/
theorem c5_level_completion :
    ∀ (config : Pacman) (defaultB : Board) (s : StateCore) (buttons : Input) (rng : Rng)
      (u : StateCore),
      updateMutPreEnd config s buttons rng = some (u, false) →
      u.board.board_complete = true →
      ∃ s', updateMutCore config defaultB s buttons rng = some (s', false, s.score) ∧
        s'.level = u.level + 1 ∧ u.level = s.level ∧
        s'.vulnerability_timer = 0 ∧
        s'.board = defaultB ∧
        s'.player = u.player.reset config.player_start u.board ∧
        s'.enemies = u.enemies.map fun e => e.reset config.player_start u.board := by
  intro config defaultB s buttons rng u h hc
  have hp := updateMutPreEnd_level_lives h
  have he : endPhase config defaultB false s.score u =
      { stateReset config u false with
        level := (stateReset config u false).level + 1, vulnerability_timer := 0,
        board := defaultB } := by
    unfold endPhase
    rw [if_neg (by simp), if_pos hc]
  refine ⟨endPhase config defaultB false s.score u, ?_, ?_, hp.1, ?_, ?_, ?_, ?_⟩
  · rw [updateMutCore, h]
  · rw [he]; rfl
  · rw [he]
  · rw [he]
  · rw [he]; rfl
  · rw [he]; rfl

/-- Witness for `c5_level_completion`: the concrete completion tick of `sC`. -/
theorem c5_witness :
    ∃ s', updateMutCore cfgC boardA sC Input.default [] = some (s', false, sC.score) ∧
      s'.board = boardA ∧ s'.vulnerability_timer = 0 := by
  obtain ⟨s', h1, _, _, h4, h5, -⟩ :=
    c5_level_completion cfgC boardA sC Input.default [] _ rfl rfl
  exact ⟨s', h1, h5, h4⟩

/-- Claim C5 counterexample: the completion tick of `sC` installs the global
default board `boardA`, while the layout supplied in the configuration
parses to `boardC`, a different board. -/
theorem c5_counterexample :
    (updateMutCore cfgC boardA sC Input.default []).map
        (fun r => (r.1.level, decide (r.1.board = boardA), r.2.1)) = some (2, true, false) ∧
    (Board.try_new cfgC.board).map (fun r =>
        match r with
        | .ok b => some b
        | .error _ => none)
      = some (some boardC) ∧
    boardC ≠ boardA :=
  ⟨by decide, by decide, by decide⟩

/-! Claim C10: totality of the player's pellet handling. -/

/-- The junction push never changes the AI tag. -/
theorem Mob.pushJunction_ai (m : Mob) (t : TilePoint) (b : Board) :
    (m.pushJunction t b).ai = m.ai := by
  unfold Mob.pushJunction
  split
  · rfl
  · rfl

/-- The history seeding never changes the AI tag. -/
theorem Mob.seedHistory_ai (m : Mob) (b : Board) : (m.seedHistory b).ai = m.ai := by
  unfold Mob.seedHistory
  repeat' split
  all_goals rfl

/-- The movement block never changes the AI tag. -/
theorem Mob.moveStep_ai (m : Mob) (b : Board) : (m.moveStep b).1.ai = m.ai := by
  unfold Mob.moveStep
  repeat' split
  all_goals simp [Mob.pushJunction_ai]

/-- The movement phase never changes the AI tag. -/
theorem Mob.advance_ai (m : Mob) (b : Board) : (m.advance b).ai = m.ai := by
  show ((m.seedHistory b).moveStep b).1.ai = m.ai
  rw [Mob.moveStep_ai, Mob.seedHistory_ai]

/-- For a player, planning always succeeds and leaves position, history and
the AI tag unchanged. -/
theorem Mob.plan_player {m1 : Mob} (buttons : Input) (board : Board) (player : Option Mob)
    (rng : Rng) (hai : m1.ai = MovementAI.Player) :
    ∃ m2, Mob.plan m1 buttons board player rng = some (m2, rng) ∧
      m2.position = m1.position ∧ m2.history = m1.history ∧ m2.ai = MovementAI.Player := by
  unfold Mob.plan
  split
  · rw [hai]
    unfold MovementAI.choose_next_tile
    exact ⟨_, rfl, rfl, rfl, rfl⟩
  · exact ⟨m1, rfl, rfl, rfl, hai⟩

/-- Characterization of the pellet check at an in-bounds player tile: it
panics (returns `none`) exactly when the tile holds a collectable and the
junction history is empty at the front read. -/
theorem check_pellets_char {b : Board} {pos : WorldPoint} {hist : List Nat}
    (h : b.inBoundsT pos.to_tile) :
    (b.check_pellets_every_tile pos hist = none ↔
      ((b.get_tile pos.to_tile).is_still_collectable = true ∧ hist = [])) := by
  obtain ⟨hy, hx, hlt⟩ := h
  rcases hrow : b.tiles[pos.to_tile.ty.toNat]? with _ | row
  · rw [hrow] at hlt; simp at hlt
  · rw [hrow] at hlt
    simp only [Option.getD_some] at hlt
    have hylen : pos.to_tile.ty.toNat < b.tiles.length := by
      by_contra hh
      rw [List.getElem?_eq_none_iff.mpr (by omega)] at hrow
      cases hrow
    rcases hcell : row[pos.to_tile.tx.toNat]? with _ | cell
    · rw [List.getElem?_eq_none_iff] at hcell; omega
    · set row1 : List Tile := row.set pos.to_tile.tx.toNat Tile.Empty with hrow1d
      set b1 : Board := { b with tiles := b.tiles.set pos.to_tile.ty.toNat row1 } with hb1d
      have hget : b.get_tile pos.to_tile = cell := by
        unfold Board.get_tile
        rw [if_pos ⟨hy, hx⟩]
        simp only [hrow, hcell]
      have hcp : b.collect_pellet pos.to_tile =
          some (if cell = Tile.Pellet then (b1, true) else (b, false)) := by
        unfold Board.collect_pellet
        rw [if_pos ⟨hy, hx⟩]
        simp only [hrow, hcell]
        by_cases hc : cell = Tile.Pellet
        · rw [if_neg (by simp [hc]), if_pos hc]
        · rw [if_pos hc, if_neg hc]
      by_cases hc : cell = Tile.Pellet
      · -- a pellet is collected; the power-pellet check then sees Empty
        have hrow1 : b1.tiles[pos.to_tile.ty.toNat]? = some row1 :=
          List.getElem?_set_self hylen
        have hcell1 : row1[pos.to_tile.tx.toNat]? = some Tile.Empty :=
          List.getElem?_set_self hlt
        have hcpp : b1.collect_power_pellet pos.to_tile = some (b1, false) := by
          unfold Board.collect_power_pellet
          rw [if_pos ⟨hy, hx⟩]
          simp only [hrow1, hcell1]
          rw [if_pos (by simp)]
        rcases hist with _ | ⟨a, rest⟩
        · simp +decide [Board.check_pellets_every_tile, hcp, hcpp, hc, hget]
        · simp +decide [Board.check_pellets_every_tile, hcp, hcpp, hc, hget]
      · by_cases hc2 : cell = Tile.PowerPellet
        · -- a power pellet is collected
          have hcpp : b.collect_power_pellet pos.to_tile = some (b1, true) := by
            unfold Board.collect_power_pellet
            rw [if_pos ⟨hy, hx⟩]
            simp only [hrow, hcell]
            rw [if_neg (by simp [hc2])]
          rcases hist with _ | ⟨a, rest⟩
          · simp +decide [Board.check_pellets_every_tile, hcp, hcpp, hc, hc2, hget]
          · simp +decide [Board.check_pellets_every_tile, hcp, hcpp, hc, hc2, hget]
        · -- nothing is collected
          have hcpp : b.collect_power_pellet pos.to_tile = some (b, false) := by
            unfold Board.collect_power_pellet
            rw [if_pos ⟨hy, hx⟩]
            simp only [hrow, hcell]
            rw [if_pos hc2]
          have hcolf : cell.is_still_collectable = false := by
            rcases cell with _ | _ | _ | _ | _ | _ <;> simp_all [Tile.is_still_collectable]
          simp +decide [Board.check_pellets_every_tile, hcp, hcpp, hc, hget, hcolf]

/-- Claim C10: for the player Mob, the tick update is total on in-bounds
tiles precisely under the precondition that the junction history is
non-empty whenever a collectable is picked up — a collection with an empty
history hits the unconditional front read and panics, while a non-empty
history makes the collection branch total. -/
theorem c10_collection_totality :
    ∀ (m : Mob) (buttons : Input) (board : Board) (player : Option Mob) (limit : Nat)
      (rng : Rng),
      m.ai = MovementAI.Player →
      board.inBoundsT (m.advance board).position.to_tile →
      (((board.get_tile (m.advance board).position.to_tile).is_still_collectable = true →
          (m.advance board).history = [] →
          m.update buttons board player limit rng = none) ∧
       ((m.advance board).history ≠ [] →
          (m.update buttons board player limit rng).isSome = true)) := by
  intro m buttons board player limit rng hai hin
  have hai1 : (m.advance board).ai = MovementAI.Player := by rw [Mob.advance_ai, hai]
  obtain ⟨m2, hplan, hpos, hhist, hai2⟩ :=
    Mob.plan_player buttons board player rng hai1
  have hisp : m2.is_player = true := by
    unfold Mob.is_player
    rw [hai2]
    decide
  constructor
  · intro hcol hempty
    unfold Mob.update
    rw [hplan]
    simp only [hisp, if_true]
    have hnone : board.check_pellets_every_tile m2.position m2.history = none := by
      rw [hpos, hhist]
      exact (check_pellets_char hin).mpr ⟨hcol, hempty⟩
    rw [hnone]
  · intro hne
    unfold Mob.update
    rw [hplan]
    simp only [hisp, if_true]
    rcases hck : board.check_pellets_every_tile m2.position m2.history with _ | res
    · exfalso
      rw [hpos, hhist] at hck
      exact hne ((check_pellets_char hin).mp hck).2
    · rfl

/-- Witness for `c10_collection_totality`: the player on the pellet tile of
`boardA` with an empty history panics; with any recorded junction the update
succeeds. -/
theorem c10_witness :
    mobP.update Input.default boardA none 12 [] = none ∧
    ({ mobP with history := [7] }.update Input.default boardA none 12 []).isSome = true := by
  have h1 := c10_collection_totality mobP Input.default boardA none 12 [] rfl (by decide)
  have h2 := c10_collection_totality { mobP with history := [7] } Input.default boardA none 12 []
    rfl (by decide)
  exact ⟨h1.1 (by decide) (by decide), h2.2 (by decide)⟩

/-! Claim C9: the junction set. -/

/-- The stored junction set agrees with a recomputation from the current
tiles (the claim's invariant). -/
def Board.junctionsValid (b : Board) : Prop :=
  b.junctions = b.computeJunctions

instance (b : Board) : Decidable b.junctionsValid := by
  unfold Board.junctionsValid
  infer_instance

/-- Membership in the recomputed junction list. -/
theorem Board.mem_junctionList {b : Board} {j : Nat} :
    j ∈ b.junctionList ↔ ∃ y x row cell, b.tiles[y]? = some row ∧ row[x]? = some cell ∧
      b.junctionCond x y cell = true ∧ j = y * b.width + x := by
  unfold Board.junctionList
  rw [List.mem_flatMap]
  constructor
  · rintro ⟨⟨y, rrow⟩, hyr, hmem⟩
    rw [List.mem_filterMap] at hmem
    obtain ⟨⟨x, cell⟩, hxc, hsome⟩ := hmem
    rw [List.mk_mem_enum_iff_getElem?] at hyr
    rw [List.mk_mem_enum_iff_getElem?] at hxc
    by_cases hcond : b.junctionCond x y cell = true
    · rw [if_pos hcond] at hsome
      exact ⟨y, x, rrow, cell, hyr, hxc, hcond, (Option.some.injEq _ _).mp hsome |>.symm⟩
    · rw [if_neg hcond] at hsome
      cases hsome
  · rintro ⟨y, x, row, cell, hrow, hcell, hcond, rfl⟩
    refine ⟨(y, row), ?_, ?_⟩
    · rw [List.mk_mem_enum_iff_getElem?]
      exact hrow
    · rw [List.mem_filterMap]
      refine ⟨(x, cell), ?_, ?_⟩
      · rw [List.mk_mem_enum_iff_getElem?]
        exact hcell
      · rw [if_pos hcond]

/-- Walkability as seen through `get_tile`, in terms of `cellWalk`. -/
theorem get_tile_walkable (b : Board) (t : TilePoint) :
    (b.get_tile t).walkable =
      if 0 ≤ t.ty ∧ 0 ≤ t.tx then (cellWalk b t.ty.toNat t.tx.toNat).getD true
      else true := by
  unfold Board.get_tile cellWalk
  split
  · rcases hrow : b.tiles[t.ty.toNat]? with _ | row
    · simp [Tile.walkable]
    · rcases hcell : row[t.tx.toNat]? with _ | cell
      · simp [hcell, Tile.walkable]
      · simp [hcell]
  · rfl

/-- The walkable-neighbour count only depends on the walkability data. -/
theorem walkableNeighbors_congr {b b' : Board}
    (hc : ∀ y x, cellWalk b y x = cellWalk b' y x) (x y : Int) :
    b.walkableNeighbors x y = b'.walkableNeighbors x y := by
  unfold Board.walkableNeighbors
  apply List.countP_congr
  intro a _
  rw [get_tile_walkable, get_tile_walkable, hc]

/-- The junction condition only depends on walkability, width and height. -/
theorem junctionCond_congr {b b' : Board} (hw : b.width = b'.width)
    (hh : b.height = b'.height) (hc : ∀ y x, cellWalk b y x = cellWalk b' y x)
    (x y : Nat) {cell cell' : Tile} (hwalk : cell.walkable = cell'.walkable) :
    b.junctionCond x y cell = b'.junctionCond x y cell' := by
  unfold Board.junctionCond Board.is_corner
  rw [hwalk, walkableNeighbors_congr hc, hw, hh]

/-- Read one cell's walkability from explicit lookups. -/
theorem cellWalk_eq_some {b : Board} {y x : Nat} {row : List Tile} {cell : Tile}
    (hrow : b.tiles[y]? = some row) (hcell : row[x]? = some cell) :
    cellWalk b y x = some cell.walkable := by
  unfold cellWalk
  rw [hrow]
  simp [hcell]

/-- Invert a defined cell's walkability into explicit lookups. -/
theorem cellWalk_some_inv {b : Board} {y x : Nat} {w : Bool}
    (h : cellWalk b y x = some w) :
    ∃ row cell, b.tiles[y]? = some row ∧ row[x]? = some cell ∧ cell.walkable = w := by
  unfold cellWalk at h
  rcases hrow : b.tiles[y]? with _ | row
  · rw [hrow] at h
    cases h
  · rw [hrow] at h
    rcases hcell : row[x]? with _ | cell
    · simp only [Option.some_bind, hcell] at h
      cases h
    · simp only [Option.some_bind, hcell, Option.map_some'] at h
      exact ⟨row, cell, rfl, hcell, (Option.some.injEq _ _).mp h⟩

/-- The recomputed junction set only depends on the walkability data, the
width and the height. -/
theorem computeJunctions_congr {b b' : Board} (hw : b.width = b'.width)
    (hh : b.height = b'.height) (hc : ∀ y x, cellWalk b y x = cellWalk b' y x) :
    b.computeJunctions = b'.computeJunctions := by
  unfold Board.computeJunctions
  ext j
  rw [List.mem_toFinset, List.mem_toFinset, Board.mem_junctionList, Board.mem_junctionList]
  constructor
  · rintro ⟨y, x, row, cell, hrow, hcell, hcond, rfl⟩
    have hcw : cellWalk b' y x = some cell.walkable := by
      rw [← hc y x]
      exact cellWalk_eq_some hrow hcell
    obtain ⟨row', cell', hrow', hcell', hwalk'⟩ := cellWalk_some_inv hcw
    exact ⟨y, x, row', cell', hrow', hcell',
      (junctionCond_congr hw hh hc x y hwalk'.symm).symm.trans hcond,
      by rw [hw]⟩
  · rintro ⟨y, x, row, cell, hrow, hcell, hcond, rfl⟩
    have hcw : cellWalk b y x = some cell.walkable := by
      rw [hc y x]
      exact cellWalk_eq_some hrow hcell
    obtain ⟨row', cell', hrow', hcell', hwalk'⟩ := cellWalk_some_inv hcw
    exact ⟨y, x, row', cell', hrow', hcell',
      (junctionCond_congr hw hh hc x y hwalk').trans hcond,
      by rw [hw]⟩

/-- A cell overwrite that preserves walkability preserves the walkability
data of the whole grid. -/
theorem cellWalk_set {b : Board} {ty tx : Nat} {row : List Tile} {cell new : Tile}
    (hrow : b.tiles[ty]? = some row) (hcell : row[tx]? = some cell)
    (hwalk : new.walkable = cell.walkable) :
    ∀ y x, cellWalk { b with tiles := b.tiles.set ty (row.set tx new) } y x
      = cellWalk b y x := by
  have hylen : ty < b.tiles.length := by
    by_contra hh
    rw [List.getElem?_eq_none_iff.mpr (by omega)] at hrow
    cases hrow
  have hxlen : tx < row.length := by
    by_contra hh
    rw [List.getElem?_eq_none_iff.mpr (by omega)] at hcell
    cases hcell
  intro y x
  unfold cellWalk
  by_cases hyy : y = ty
  · subst hyy
    show ((b.tiles.set y (row.set tx new))[y]?.bind fun r => r[x]?).map Tile.walkable = _
    rw [List.getElem?_set_self hylen, hrow]
    simp only [Option.some_bind]
    by_cases hxx : x = tx
    · subst hxx
      rw [List.getElem?_set_self hxlen, hcell]
      simp [hwalk]
    · rw [List.getElem?_set_ne (by omega)]
  · show ((b.tiles.set ty (row.set tx new))[y]?.bind fun r => r[x]?).map Tile.walkable = _
    rw [List.getElem?_set_ne (by omega)]

/-- `collect_pellet` keeps the dimensions, the stored junction set and the
walkability data. -/
theorem collect_pellet_preserves {b : Board} {t : TilePoint} {b' : Board} {fl : Bool}
    (h : b.collect_pellet t = some (b', fl)) :
    b'.width = b.width ∧ b'.height = b.height ∧ b'.junctions = b.junctions ∧
    ∀ y x, cellWalk b' y x = cellWalk b y x := by
  unfold Board.collect_pellet at h
  split at h
  · rename_i hpos
    split at h
    · cases h
    · rename_i row hrow
      split at h
      · cases h
      · rename_i cell hcell
        split at h
        · cases h
          exact ⟨rfl, rfl, rfl, fun y x => rfl⟩
        · rename_i hc
          cases h
          rw [not_not] at hc
          exact ⟨rfl, rfl, rfl, cellWalk_set hrow hcell (by rw [hc]; rfl)⟩
  · cases h

/-- `collect_power_pellet` keeps the dimensions, the stored junction set and
the walkability data. -/
theorem collect_power_pellet_preserves {b : Board} {t : TilePoint} {b' : Board} {fl : Bool}
    (h : b.collect_power_pellet t = some (b', fl)) :
    b'.width = b.width ∧ b'.height = b.height ∧ b'.junctions = b.junctions ∧
    ∀ y x, cellWalk b' y x = cellWalk b y x := by
  unfold Board.collect_power_pellet at h
  split at h
  · rename_i hpos
    split at h
    · cases h
    · rename_i row hrow
      split at h
      · cases h
      · rename_i cell hcell
        split at h
        · cases h
          exact ⟨rfl, rfl, rfl, fun y x => rfl⟩
        · rename_i hc
          cases h
          rw [not_not] at hc
          exact ⟨rfl, rfl, rfl, cellWalk_set hrow hcell (by rw [hc]; rfl)⟩
  · cases h

/-- The junction invariant survives any board change that keeps the
dimensions, the stored set and the walkability data. -/
theorem junctionsValid_of_preserved {b b' : Board} (hw : b'.width = b.width)
    (hh : b'.height = b.height) (hj : b'.junctions = b.junctions)
    (hc : ∀ y x, cellWalk b' y x = cellWalk b y x) (hJ : b.junctionsValid) :
    b'.junctionsValid := by
  unfold Board.junctionsValid at *
  rw [hj, hJ]
  exact computeJunctions_congr hw.symm hh.symm (fun y x => (hc y x).symm)

/-- The player pellet check preserves the junction invariant of the board it
returns. -/
theorem check_pellets_valid {b : Board} {pos : WorldPoint} {hist : List Nat}
    {b' : Board} {h' : List Nat} {sc : BoardUpdate}
    (h : b.check_pellets_every_tile pos hist = some (b', h', sc))
    (hJ : b.junctionsValid) : b'.junctionsValid := by
  unfold Board.check_pellets_every_tile at h
  rcases hcp : b.collect_pellet pos.to_tile with _ | ⟨b1, pel⟩
  · rw [hcp] at h
    cases h
  · simp only [hcp] at h
    rcases hcpp : b1.collect_power_pellet pos.to_tile with _ | ⟨b2, pow⟩
    · rw [hcpp] at h
      cases h
    · simp only [hcpp] at h
      have h1 := collect_pellet_preserves hcp
      have h2 := collect_power_pellet_preserves hcpp
      have hv2 : b2.junctionsValid :=
        junctionsValid_of_preserved
          (h2.1.trans h1.1) (h2.2.1.trans h1.2.1) (h2.2.2.1.trans h1.2.2.1)
          (fun y x => (h2.2.2.2 y x).trans (h1.2.2.2 y x)) hJ
      cases pel
      · cases pow
        · rw [if_neg (by decide)] at h
          cases h
          exact hv2
        · rw [if_pos (by decide)] at h
          rcases hist with _ | ⟨a, rest⟩
          · cases h
          · cases h
            exact hv2
      · cases pow
        · rw [if_pos (by decide)] at h
          rcases hist with _ | ⟨a, rest⟩
          · cases h
          · cases h
            exact hv2
        · rw [if_pos (by decide)] at h
          rcases hist with _ | ⟨a, rest⟩
          · cases h
          · cases h
            exact hv2

/-- `Mob::update` preserves the junction invariant of the board it returns. -/
theorem Mob.update_board_valid {m : Mob} {buttons : Input} {board : Board}
    {player : Option Mob} {limit : Nat} {rng : Rng} {m' : Mob} {board' : Board}
    {rng' : Rng} {u : Option BoardUpdate}
    (h : m.update buttons board player limit rng = some (m', board', rng', u))
    (hJ : board.junctionsValid) : board'.junctionsValid := by
  unfold Mob.update at h
  split at h
  · cases h
  · rename_i m2 rng2 hplan
    split at h
    · rcases hck : board.check_pellets_every_tile m2.position m2.history with _ | ⟨b2, h2, sc2⟩
      · rw [hck] at h
        cases h
      · rw [hck] at h
        cases h
        exact check_pellets_valid hck hJ
    · split at h
      · cases h
        exact hJ
      · cases h
        exact hJ

/-- The enemy-movement loop preserves the junction invariant of the board it
threads. -/
theorem moveEnemiesGo_board_valid (config : Pacman) (player : Mob) :
    ∀ (es : List Mob) (board : Board) (rng : Rng) (res : List Mob × Board × Rng),
      moveEnemiesGo config player es board rng = some res →
      board.junctionsValid → res.2.1.junctionsValid := by
  intro es
  induction es with
  | nil =>
    intro board rng res h hJ
    cases h
    exact hJ
  | cons e rest ih =>
    intro board rng res h hJ
    unfold moveEnemiesGo at h
    split at h
    · cases h
    · rename_i e' board1 rng1 upd hup
      split at h
      · cases h
      · rename_i tr rest' board2 rng2 hgo
        cases h
        exact ih board1 rng1 (rest', board2, rng2) hgo (Mob.update_board_valid hup hJ)

/-- `moveEnemies` preserves the junction invariant. -/
theorem moveEnemies_board_valid {config : Pacman} {s : StateCore} {rng : Rng}
    {s' : StateCore} {rng' : Rng} (h : moveEnemies config s rng = some (s', rng'))
    (hJ : s.board.junctionsValid) : s'.board.junctionsValid := by
  unfold moveEnemies at h
  rcases hg : moveEnemiesGo config s.player s.enemies s.board rng with _ | ⟨es', b', r'⟩
  · rw [hg] at h
    cases h
  · rw [hg] at h
    cases h
    exact moveEnemiesGo_board_valid config s.player s.enemies s.board rng _ hg hJ

/-- The pre-move phases carry the board written back by the player update. -/
theorem preMoveState_board (config : Pacman) (s : StateCore) (player' : Mob)
    (board' : Board) (score_change_opt : Option BoardUpdate) :
    (preMoveState config s player' board' score_change_opt).board = board' := by
  unfold preMoveState
  have h2 : (match score_change_opt with
      | some score_change =>
        applyScoreChange config { s with player := player', board := board' } score_change
      | none => { s with player := player', board := board' }).board = board' := by
    rcases score_change_opt with _ | sc
    · rfl
    · show (applyScoreChange config { s with player := player', board := board' } sc).board
        = board'
      unfold applyScoreChange
      split
      · rfl
      · rfl
  have h3 : ∀ t : StateCore, (clearVulnIfZero t).board = t.board := by
    intro t
    unfold clearVulnIfZero
    split
    · rfl
    · rfl
  have h4 : ∀ t : StateCore, (teleportPlayerIfOnTp t).board = t.board := by
    intro t
    unfold teleportPlayerIfOnTp
    split
    · rfl
    · rfl
  have h5 : ∀ t : StateCore, (decrementVuln t).board = t.board := by
    intro t
    unfold decrementVuln
    split
    · rfl
    · rfl
  rw [h5, h4, h3, h2]

/-- The post-move tail keeps the board of the post-movement state. -/
theorem postMoveAssemble_board (config : Pacman) (changes1 : List EnemyPlayerState)
    (s7 : StateCore) : (postMoveAssemble config changes1 s7).1.board = s7.board := by
  unfold postMoveAssemble
  have h8 := (processChanges_fields config (changes1 ++ collisionPass s7)
    (applyEnemyTeleports s7 (teleportVec s7)) 5).2.2.2.2.1
  have h9 := (lifeGain_fields config
    (processChanges config (changes1 ++ collisionPass s7)
      (applyEnemyTeleports s7 (teleportVec s7)) 5).2).2.2.2.2.1
  rw [h9, h8]
  rfl

/-- The pre-end tick phases preserve the junction invariant. -/
theorem updateMutPreEnd_board_valid {config : Pacman} {s : StateCore} {buttons : Input}
    {rng : Rng} {u : StateCore} {dead : Bool}
    (h : updateMutPreEnd config s buttons rng = some (u, dead))
    (hs : s.board.junctionsValid) : u.board.junctionsValid := by
  rw [updateMutPreEnd] at h
  split at h
  · cases h
  · rename_i player' board' rng1 scOpt hp
    split at h
    · cases h
    · rename_i s7 rng2 hmv
      injection h with h'
      have hu : (postMoveAssemble config
          (collisionPass (preMoveState config s player' board' scOpt)) s7).1 = u :=
        congrArg Prod.fst h'
      have hb' : board'.junctionsValid := Mob.update_board_valid hp hs
      have h6 : (recomputeEnemySpeeds config
          (preMoveState config s player' board' scOpt)).board = board' := by
        show (preMoveState config s player' board' scOpt).board = board'
        exact preMoveState_board config s player' board' scOpt
      have h7 : s7.board.junctionsValid :=
        moveEnemies_board_valid hmv (by rw [h6]; exact hb')
      rw [← hu, postMoveAssemble_board]
      exact h7

/-- A full tick preserves the junction invariant, given that the global
default board satisfies it. -/
theorem updateMutCore_junctionsValid {config : Pacman} {defaultB : Board} {s : StateCore}
    {buttons : Input} {rng : Rng} {s' : StateCore} {dead : Bool} {pre : Int}
    (h : updateMutCore config defaultB s buttons rng = some (s', dead, pre))
    (hs : s.board.junctionsValid) (hd : defaultB.junctionsValid) :
    s'.board.junctionsValid := by
  rw [updateMutCore] at h
  split at h
  · cases h
  · rename_i u dead' hpre
    cases h
    have hu : u.board.junctionsValid := updateMutPreEnd_board_valid hpre hs
    unfold endPhase
    split
    · show ((stateReset config
        { u with lives := u.lives - 1, score := s.score } true).board).junctionsValid
      unfold stateReset
      exact hu
    · split
      · exact hd
      · exact hu

/-- Claim C9: for every board whose stored junction set matches its
recomputation (as construction guarantees), a tile id is a junction iff its
cell is walkable and has more than two walkable orthogonal neighbours or
lies at a grid corner; `try_new` establishes this invariant, and a full tick
preserves it (pellet collection never changes walkability, and the board
installed at level completion was itself built by construction). -/
theorem c9_junction_stability :
    (∀ (b : Board) (j : Nat), b.junctionsValid →
      (j ∈ b.junctions ↔ ∃ (y x : Nat) (row : List Tile) (cell : Tile),
        b.tiles[y]? = some row ∧ row[x]? = some cell ∧
        (cell.walkable = true ∧
          (2 < b.walkableNeighbors (x : Int) (y : Int) ∨
            b.is_corner (x : Int) (y : Int) = true)) ∧
        j = y * b.width + x)) ∧
    (∀ (lines : List String) (b : Board), Board.try_new lines = some (Except.ok b) →
      b.junctionsValid) ∧
    (∀ (config : Pacman) (defaultB : Board) (s : StateCore) (buttons : Input) (rng : Rng)
      (s' : StateCore) (dead : Bool) (pre : Int),
      s.board.junctionsValid → defaultB.junctionsValid →
      updateMutCore config defaultB s buttons rng = some (s', dead, pre) →
      s'.board.junctionsValid) := by
  refine ⟨fun b j hJ => ?_, fun lines b h => ?_,
    fun config defaultB s buttons rng s' dead pre h1 h2 h3 =>
      updateMutCore_junctionsValid h3 h1 h2⟩
  · rw [hJ]
    unfold Board.computeJunctions
    rw [List.mem_toFinset, Board.mem_junctionList]
    constructor
    · rintro ⟨y, x, row, cell, hrow, hcell, hcond, hj⟩
      refine ⟨y, x, row, cell, hrow, hcell, ?_, hj⟩
      unfold Board.junctionCond at hcond
      simp only [Bool.and_eq_true, Bool.or_eq_true, decide_eq_true_eq] at hcond
      exact ⟨hcond.1, hcond.2⟩
    · rintro ⟨y, x, row, cell, hrow, hcell, hcond, hj⟩
      refine ⟨y, x, row, cell, hrow, hcell, ?_, hj⟩
      unfold Board.junctionCond
      simp only [Bool.and_eq_true, Bool.or_eq_true, decide_eq_true_eq]
      exact ⟨hcond.1, hcond.2⟩
  · unfold Board.try_new at h
    split at h
    · simp at h
    · split at h
      · cases h
      · cases h
        rfl

/-- Witness for `c9_junction_stability` on concrete boards and a concrete
tick. -/
theorem c9_witness :
    (5 ∈ boardB.junctions ↔ ∃ (y x : Nat) (row : List Tile) (cell : Tile),
      boardB.tiles[y]? = some row ∧
      row[x]? = some cell ∧ (cell.walkable = true ∧
        (2 < boardB.walkableNeighbors (x : Int) (y : Int) ∨
          boardB.is_corner (x : Int) (y : Int) = true)) ∧ 5 = y * boardB.width + x) ∧
    boardA.junctionsValid ∧
    ∃ s' dead pre, updateMutCore cfgA boardA sA Input.default [] = some (s', dead, pre) ∧
      s'.board.junctionsValid := by
  refine ⟨c9_junction_stability.1 boardB 5 (by decide),
    c9_junction_stability.2.1 rowsA boardA (by rfl), ?_⟩
  obtain ⟨r, hr⟩ : ∃ r, updateMutCore cfgA boardA sA Input.default [] = some r := ⟨_, rfl⟩
  refine ⟨r.1, r.2.1, r.2.2, by rw [hr], ?_⟩
  exact c9_junction_stability.2.2 cfgA boardA sA Input.default [] r.1 r.2.1 r.2.2
    (by decide) (by decide) (by rw [hr])

end Pac
